import Mathlib

/-!
Verification of the llvm-ir-builder emission engine.

The repository is a collection of small C++ programs that drive the LLVM-C++
API to emit LLVM IR modules.  This development gives a shallow embedding of
the parts of that engine the claims are about:

* a module-level model (types, constants, global variables, functions and the
  symbol-table operations `defineGlobalVariable`, `declareFunction`,
  `defineFunction`, `emitConstant`, `emitStringPtr`, `emitLoadValue`,
  `saveModuleIRToFile`), translated from `src/src/ir_builder.cpp`,
  `src/src/structs.cpp`, `src/src/15_loop_for.cpp` and
  `src/src/16_loop_while.cpp` (the files share these functions verbatim);

* an instruction-level model of the IR the emitters produce (loads, stores,
  `getelementptr`, `sext`, `icmp sle`, `add nsw`, branches) together with an
  executable small-step interpreter, used to settle the claims about the
  behaviour of the emitted code: the loop body counts, the aggregate
  addressing arithmetic, and the store/load round trip.

LLVM API facts used by the model (these are properties of the called library,
not of the repository code): `Module::getOrInsertGlobal` leaves an existing
global of the same name untouched; `GlobalVariable::setInitializer` requires
the new initializer's type to equal the global's value type (an assertion in
LLVM, recorded here as `SetInitializerOK`); `GlobalValue::setLinkage` marks a
global-value `dso_local` whenever the linkage is local (private);
`IRBuilder::CreateGlobalString` creates a fresh private constant (hence
implicitly `dso_local`); signed-wrap (`nsw`) arithmetic produces poison on
signed overflow, and branching on poison is undefined behaviour (the
interpreter gets stuck).
-/

namespace IRB

/-- LLVM types, as used by the emitters: fixed-width integers, the three
float widths, pointers, arrays, named structs (unions are structs with a
single storage field), and void. -/
inductive Ty where
  | int (w : Nat)
  | f32
  | f64
  | fp80
  | ptr (pointee : Ty)
  | arr (elem : Ty) (n : Nat)
  | strukt (sname : String) (fields : List Ty)
  | void

/-- `Type::getNonOpaquePointerElementType`: the pointee of a pointer type. -/
def Ty.pointee : Ty → Option Ty
  | .ptr t => some t
  | _ => none

/-- LLVM constants, as produced by the emitters. Float payloads are not
modelled (no claim computes with them). -/
inductive Const where
  | int (w : Nat) (v : Int)
  | fp (ty : Ty)
  | nullptr (pointee : Ty)
  | arrC (elemTy : Ty) (n : Nat) (elems : List Const)
  | structC (sty : Ty) (fields : List Const)

/-- `Constant::getType`. -/
def Const.ty : Const → Ty
  | .int w _ => .int w
  | .fp t => t
  | .nullptr t => .ptr t
  | .arrC t n _ => .arr t n
  | .structC t _ => t

/-- The two linkage classes the emitters use. -/
inductive Linkage where
  | external
  | priv
deriving DecidableEq, Repr

/-- `GlobalValue::hasLocalLinkage`. -/
def Linkage.isLocal : Linkage → Bool
  | .priv => true
  | .external => false

/-- A module-level global variable: name, value type (fixed at creation),
optional initializer, `dso_local` flag, constant flag, linkage. -/
structure GlobalVar where
  name : String
  valueType : Ty
  init : Option Const := none
  dsoLocal : Bool := false
  isConstant : Bool := false
  linkage : Linkage := .external

/-- The `FunProto` record of the sources: return type, parameter types,
vararg flag. -/
structure FunProto where
  returnType : Ty
  params : List Ty
  isVarArg : Bool

/-- A module-level function. Only the data the module-level claims need is
kept: bodies are handled by the instruction-level model below.  `blocks`
records the names of the basic blocks created for the function. -/
structure Func where
  name : String
  proto : FunProto
  linkage : Linkage := .external
  dsoLocal : Bool := false
  blocks : List String := []

/-- The LLVM module: the single top-level container of globals and
functions. -/
structure Module where
  globals : List GlobalVar := []
  functions : List Func := []

/-- `Module::getNamedGlobal` / `Module::getGlobalVariable`. -/
def Module.getNamedGlobal (m : Module) (name : String) : Option GlobalVar :=
  m.globals.find? (fun g => g.name = name)

/-- `Module::getOrInsertGlobal`: if a global of this name exists it is left
untouched, otherwise a fresh external global of the given value type (no
initializer yet) is appended. -/
def Module.getOrInsertGlobal (m : Module) (name : String) (ty : Ty) : Module :=
  match m.getNamedGlobal name with
  | some _ => m
  | none => { m with globals := m.globals ++ [{ name := name, valueType := ty }] }

/-- In-place mutation of the (unique) global of a given name. -/
def Module.updateGlobal (m : Module) (name : String) (f : GlobalVar → GlobalVar) :
    Module :=
  { m with globals := m.globals.map (fun g => if g.name = name then f g else g) }

/-- `GlobalVariable::setInitializer` (the mutation itself). -/
def setInitializer (g : GlobalVar) (c : Const) : GlobalVar :=
  { g with init := some c }

/-- The LLVM contract of `GlobalVariable::setInitializer`: the initializer's
type must equal the global's value type (an assertion inside LLVM; calling
the API outside this contract is erroneous). -/
def SetInitializerOK (g : GlobalVar) (c : Const) : Prop :=
  c.ty = g.valueType

/-- `GlobalValue::setDSOLocal`. -/
def setDSOLocal (g : GlobalVar) (b : Bool) : GlobalVar :=
  { g with dsoLocal := b }

/-- `GlobalValue::setLinkage`; LLVM marks the value `dso_local` when the new
linkage is local. -/
def setLinkage (g : GlobalVar) (l : Linkage) : GlobalVar :=
  { g with linkage := l, dsoLocal := g.dsoLocal || l.isLocal }

/-- `defineGlobalVariable(type, name, init)` of the sources:
`getOrInsertGlobal`, then `getNamedGlobal`, then `setInitializer`, then
`setDSOLocal(true)`; returns the (updated) global.  After `getOrInsertGlobal`
the lookup cannot miss, so the `getD` default is never used
(`getOrInsertGlobal_getNamedGlobal` below). -/
def defineGlobalVariable (m : Module) (ty : Ty) (name : String) (init : Const) :
    Module × GlobalVar :=
  let m1 := m.getOrInsertGlobal name ty
  let g0 := (m1.getNamedGlobal name).getD { name := name, valueType := ty }
  let g1 := setDSOLocal (setInitializer g0 init) true
  (m1.updateGlobal name (fun _ => g1), g1)

/-- The overload `defineGlobalVariable(name, init)`: the type is inferred
from the initializer's own type. -/
def defineGlobalVariableInfer (m : Module) (name : String) (init : Const) :
    Module × GlobalVar :=
  defineGlobalVariable m init.ty name init

/-- `emitLoadValue(llvm::GlobalVariable*)`: emits a load whose loaded type is
the type of the global's registered initializer (`getInitializer` traps when
there is none, hence the `Option`).  The result records the loaded type and
the source global's name. -/
def emitLoadValueG (g : GlobalVar) : Option (Ty × String) :=
  g.init.map (fun c => (c.ty, g.name))

/-- `emitConstant(ty, name, init)`: a private constant named
`__constant.<function>.<name>`, created through `defineGlobalVariable` and
then marked constant and private. -/
def emitConstant (m : Module) (funcName : String) (ty : Ty) (name : String)
    (init : Const) : Module :=
  let constVarName := "__constant." ++ funcName ++ "." ++ name
  let m1 := (defineGlobalVariable m ty constVarName init).1
  m1.updateGlobal constVarName (fun g => setLinkage { g with isConstant := true } .priv)

/-- The i8 array constant `IRBuilder::CreateGlobalString` builds from a
string (the characters plus a trailing NUL). -/
def stringConst (content : String) : Const :=
  .arrC (.int 8) (content.length + 1)
    (content.toList.map (fun ch => .int 8 ch.toNat) ++ [.int 8 0])

/-- The global `IRBuilder::CreateGlobalString` creates for a string: a fresh
private constant named `.<name>`; private linkage makes it implicitly
`dso_local` in LLVM. -/
def stringGlobal (content : String) (name : String) : GlobalVar :=
  { name := "." ++ name
    valueType := (stringConst content).ty
    init := some (stringConst content)
    dsoLocal := true
    isConstant := true
    linkage := .priv }

/-- `emitStringPtr(content, name)`: appends the fresh string global. -/
def emitStringPtr (m : Module) (content : String) (name : String) : Module :=
  { m with globals := m.globals ++ [stringGlobal content name] }

/-- `Module::getFunction`. -/
def Module.getFunction (m : Module) (name : String) : Option Func :=
  m.functions.find? (fun f => f.name = name)

/-- `declareFunction(name)`: return the module's function of that name if it
exists; otherwise create it from the registered prototype with external
linkage and `dso_local` set. -/
def declareFunction (protos : String → FunProto) (m : Module) (name : String) :
    Module × Func :=
  match m.getFunction name with
  | some f => (m, f)
  | none =>
    let f : Func :=
      { name := name, proto := protos name, linkage := .external, dsoLocal := true }
    ({ m with functions := m.functions ++ [f] }, f)

/-- `emitFunctionBody`: creates the `entry` block, makes it the insertion
point, runs the registered statement-list emitter and emits the return.  At
the module level only the created block is recorded; the emitted instructions
are the subject of the instruction-level model below. -/
def emitFunctionBody (f : Func) : Func :=
  { f with blocks := f.blocks ++ ["entry"] }

/-- `defineFunction(name)`: looks the function up in the module and emits its
body into it.  When no function of that name exists, `getFunction` returns
null and `emitFunctionBody` dereferences it (`fn->getReturnType()`): a crash,
modelled as `none`. -/
def defineFunction (m : Module) (name : String) : Option Module :=
  match m.getFunction name with
  | none => none
  | some _ =>
    some { m with functions :=
      m.functions.map (fun f => if f.name = name then emitFunctionBody f else f) }

/-- Stand-in for the external serialization service (`Module::print`); the
claims never inspect the text, only whether it reaches its destination. -/
def printModule (m : Module) : String :=
  String.intercalate "\n" (m.globals.map (fun g => g.name) ++
    m.functions.map (fun f => f.name))

/-- The observable outcome of `saveModuleIRToFile`: the content that reached
the file (if the open succeeded), the diagnostics produced, and whether the
operation aborted. -/
structure SaveOutcome where
  written : Option String
  diagnostics : List String
  aborted : Bool

/-- `saveModuleIRToFile(filename)`: constructs a `raw_fd_ostream`, capturing
the open error code into a local, and prints the module to it.  The error
code is never inspected: no branch, no diagnostic, no abort.  A stream whose
open failed discards the output, so the text only reaches the file when the
environment-supplied error code is zero. -/
def saveModuleIRToFile (m : Module) (errorCode : Nat) : SaveOutcome :=
  { written := if errorCode = 0 then some (printModule m) else none,
    diagnostics := [],
    aborted := false }

/-- The module-mutating operations of the emitters, as a reified syntax so
that claims can quantify over arbitrary call sequences. -/
inductive MOp where
  | defG (ty : Ty) (name : String) (init : Const)
  | defGInfer (name : String) (init : Const)
  | declF (name : String)
  | econst (funcName : String) (ty : Ty) (name : String) (init : Const)
  | estr (content : String) (name : String)

/-- Apply one emitter operation to the module. -/
def applyOp (protos : String → FunProto) (m : Module) : MOp → Module
  | .defG ty name init => (defineGlobalVariable m ty name init).1
  | .defGInfer name init => (defineGlobalVariableInfer m name init).1
  | .declF name => (declareFunction protos m name).1
  | .econst f ty name init => emitConstant m f ty name init
  | .estr content name => emitStringPtr m content name

/-- Apply a sequence of emitter operations. -/
def applyOps (protos : String → FunProto) (m : Module) : List MOp → Module
  | [] => m
  | op :: rest => applyOps protos (applyOp protos m op) rest

/-- The `setInitializer` contract for one operation against the current
module state: the initializer's type must match the value type the global
will have when `setInitializer` runs (the existing global's value type if the
name is present, the requested type otherwise). -/
def OpOK (m : Module) : MOp → Prop
  | .defG ty name init =>
      init.ty = (match m.getNamedGlobal name with
                 | some g => g.valueType
                 | none => ty)
  | .defGInfer name init =>
      (match m.getNamedGlobal name with
       | some g => init.ty = g.valueType
       | none => True)
  | .declF _ => True
  | .econst f ty name init =>
      init.ty = (match m.getNamedGlobal ("__constant." ++ f ++ "." ++ name) with
                 | some g => g.valueType
                 | none => ty)
  | .estr _ _ => True

/-- Every operation of the sequence respects the `setInitializer` contract at
the state it runs in. -/
def OpsOK (protos : String → FunProto) : Module → List MOp → Prop
  | _, [] => True
  | m, op :: rest => OpOK m op ∧ OpsOK protos (applyOp protos m op) rest

/-- Module invariant: every registered initializer's type equals its global's
value type. -/
def WTG (m : Module) : Prop :=
  ∀ g ∈ m.globals, ∀ c, g.init = some c → c.ty = g.valueType

end IRB

namespace IRB

theorem find?_append_none {α : Type} (p : α → Bool) (l1 l2 : List α)
    (h : l1.find? p = none) : (l1 ++ l2).find? p = l2.find? p := by
  induction l1 with
  | nil => simp
  | cons a l ih =>
    cases hpa : p a with
    | true => simp [List.find?_cons, hpa] at h
    | false =>
      simp only [List.find?_cons, hpa] at h
      simpa [List.find?_cons, hpa] using ih h

/-- After `getOrInsertGlobal`, the lookup of that name finds the existing
global if there was one, and the freshly inserted one otherwise. -/
theorem getOrInsertGlobal_getNamedGlobal (m : Module) (name : String) (ty : Ty) :
    (m.getOrInsertGlobal name ty).getNamedGlobal name
      = some ((m.getNamedGlobal name).getD { name := name, valueType := ty }) := by
  unfold Module.getOrInsertGlobal
  cases h : m.getNamedGlobal name with
  | some g => simp [h]
  | none =>
    unfold Module.getNamedGlobal at h ⊢
    simp only [h]
    rw [find?_append_none _ _ _ h]
    simp [List.find?_cons]

theorem find?_update_list (name : String) (f : GlobalVar → GlobalVar)
    (hf : ∀ g : GlobalVar, g.name = name → (f g).name = name) (gs : List GlobalVar) :
    (gs.map (fun g => if g.name = name then f g else g)).find?
        (fun g => g.name = name)
      = (gs.find? (fun g => g.name = name)).map f := by
  induction gs with
  | nil => simp
  | cons a l ih =>
    by_cases h : a.name = name
    · simp [List.find?_cons, h, hf a h]
    · simp [List.find?_cons, h, ih]

theorem find?_update_list_other (name other : String) (f : GlobalVar → GlobalVar)
    (hf : ∀ g : GlobalVar, g.name = name → (f g).name = name)
    (hne : other ≠ name) (gs : List GlobalVar) :
    (gs.map (fun g => if g.name = name then f g else g)).find?
        (fun g => g.name = other)
      = gs.find? (fun g => g.name = other) := by
  induction gs with
  | nil => simp
  | cons a l ih =>
    simp only [List.map_cons, List.find?_cons]
    by_cases h : a.name = name
    · have h1 : (f a).name = name := hf a h
      have h2 : ¬ (f a).name = other := by rw [h1]; exact fun e => hne e.symm
      have h3 : ¬ a.name = other := by rw [h]; exact fun e => hne e.symm
      rw [if_pos h]
      simp only [h2, h3, decide_False, decide_eq_true_eq, if_neg]
      simpa [h2, h3] using ih
    · rw [if_neg h]
      by_cases h4 : a.name = other
      · simp [h4]
      · simpa [h4] using ih

theorem map_name_update_list (name : String) (f : GlobalVar → GlobalVar)
    (hf : ∀ g : GlobalVar, g.name = name → (f g).name = name) (gs : List GlobalVar) :
    (gs.map (fun g => if g.name = name then f g else g)).map GlobalVar.name
      = gs.map GlobalVar.name := by
  induction gs with
  | nil => simp
  | cons a l ih =>
    by_cases h : a.name = name
    · simp [h, hf a h, ih]
    · simp [h, ih]

theorem getNamedGlobal_mem (m : Module) (name : String) (g : GlobalVar)
    (h : m.getNamedGlobal name = some g) : g ∈ m.globals ∧ g.name = name := by
  unfold Module.getNamedGlobal at h
  refine ⟨List.mem_of_find?_eq_some h, ?_⟩
  have := List.find?_some h
  simpa using this

end IRB

namespace IRB

/-- Claim C3: calling `defineGlobalVariable` again with the same name and a
different initializer creates no second global and does not fail: it returns
the module's existing global for that name with its initializer replaced by
the new one (getOrInsert-then-set-initializer semantics).  The
`SetInitializerOK` hypothesis is the LLVM `setInitializer` contract under
which the call is defined. -/
theorem defineGlobalVariable_redefines_in_place
    (m : Module) (name : String) (g : GlobalVar) (ty : Ty) (c : Const)
    (hg : m.getNamedGlobal name = some g) (hok : SetInitializerOK g c) :
    (defineGlobalVariable m ty name c).1.globals.map GlobalVar.name
        = m.globals.map GlobalVar.name ∧
    (defineGlobalVariable m ty name c).2 = setDSOLocal (setInitializer g c) true ∧
    (defineGlobalVariable m ty name c).1.getNamedGlobal name
        = some (setDSOLocal (setInitializer g c) true) ∧
    ((defineGlobalVariable m ty name c).2).init = some c ∧
    ((defineGlobalVariable m ty name c).2).valueType = g.valueType := by
  have hgname : g.name = name := (getNamedGlobal_mem m name g hg).2
  have hins : m.getOrInsertGlobal name ty = m := by
    unfold Module.getOrInsertGlobal
    rw [hg]
  have hf : ∀ g' : GlobalVar, g'.name = name →
      (setDSOLocal (setInitializer g c) true).name = name := by
    intro g' _
    simpa [setDSOLocal, setInitializer] using hgname
  refine ⟨?_, ?_, ?_, ?_, ?_⟩
  · simp only [defineGlobalVariable, hins, hg, Option.getD_some, Module.updateGlobal]
    exact map_name_update_list name _ hf m.globals
  · simp [defineGlobalVariable, hins, hg]
  · have hg' : m.globals.find? (fun g' => decide (g'.name = name)) = some g := hg
    simp only [defineGlobalVariable, hins, Module.getNamedGlobal, hg', Option.getD_some,
      Module.updateGlobal]
    rw [find?_update_list name _ hf m.globals]
    rw [hg']
    rfl
  · simp [defineGlobalVariable, hins, hg, setDSOLocal, setInitializer]
  · simp [defineGlobalVariable, hins, hg, setDSOLocal, setInitializer]

def sampleOldGlobal : GlobalVar :=
  { name := "g", valueType := .int 32, init := some (.int 32 1), dsoLocal := true }

def sampleModuleG : Module :=
  { globals := [sampleOldGlobal], functions := [] }

theorem defineGlobalVariable_redefines_in_place_witness :
    (defineGlobalVariable sampleModuleG (.int 32) "g" (Const.int 32 2)).1.globals.map
        GlobalVar.name
      = sampleModuleG.globals.map GlobalVar.name ∧
    ((defineGlobalVariable sampleModuleG (.int 32) "g" (Const.int 32 2)).2).init
      = some (Const.int 32 2) :=
  ⟨(defineGlobalVariable_redefines_in_place sampleModuleG "g" sampleOldGlobal
      (.int 32) (Const.int 32 2) rfl rfl).1,
   (defineGlobalVariable_redefines_in_place sampleModuleG "g" sampleOldGlobal
      (.int 32) (Const.int 32 2) rfl rfl).2.2.2.1⟩

/-- The function `declareFunction` creates on a lookup miss: built from the
registered prototype, external linkage, `dso_local`. -/
def newFunc (protos : String → FunProto) (name : String) : Func :=
  { name := name, proto := protos name, linkage := .external, dsoLocal := true }

/-- Appending one function to the module. -/
def withFunc (m : Module) (f : Func) : Module :=
  { m with functions := m.functions ++ [f] }

theorem withFunc_getFunction (m : Module) (f : Func) (name : String)
    (h : m.getFunction name = none) (hn : f.name = name) :
    (withFunc m f).getFunction name = some f := by
  unfold Module.getFunction at h ⊢
  unfold withFunc
  rw [show ({ m with functions := m.functions ++ [f] } : Module).functions
      = m.functions ++ [f] from rfl]
  rw [find?_append_none _ _ _ h]
  simp [List.find?_cons, hn]

/-- Claim C6: `declareFunction` is idempotent: with the function already in
the module it returns that function and leaves the module unchanged;
otherwise it creates it from the registered prototype with external linkage,
so a second call returns exactly what the first call produced. -/
theorem declareFunction_idempotent (protos : String → FunProto) (m : Module)
    (name : String) :
    (∀ f, m.getFunction name = some f → declareFunction protos m name = (m, f)) ∧
    (m.getFunction name = none →
      declareFunction protos m name =
        (withFunc m (newFunc protos name), newFunc protos name)) ∧
    declareFunction protos (declareFunction protos m name).1 name
        = declareFunction protos m name := by
  refine ⟨?_, ?_, ?_⟩
  · intro f hf
    simp [declareFunction, hf]
  · intro h
    simp [declareFunction, h, withFunc, newFunc]
  · cases h : m.getFunction name with
    | some f => simp [declareFunction, h]
    | none =>
      have h2 : (withFunc m (newFunc protos name)).getFunction name
          = some (newFunc protos name) :=
        withFunc_getFunction m _ name h rfl
      simp only [declareFunction, h]
      simp only [declareFunction, withFunc, newFunc] at h2 ⊢
      rw [h2]

def sampleProtos : String → FunProto :=
  fun _ => { returnType := .int 32, params := [], isVarArg := false }

theorem declareFunction_idempotent_witness :
    declareFunction sampleProtos
        (declareFunction sampleProtos { globals := [], functions := [] } "main").1 "main"
      = declareFunction sampleProtos { globals := [], functions := [] } "main" :=
  (declareFunction_idempotent sampleProtos { globals := [], functions := [] } "main").2.2

/-- Claim C7: `defineFunction(name)` with no function of that name in the
module looks up a null function and crashes in `emitFunctionBody` (modelled
as `none`, the fatal usage error); when the name was declared first, the
failure path is never taken. -/
theorem defineFunction_requires_declaration (m : Module) (name : String) :
    (m.getFunction name = none → defineFunction m name = none) ∧
    (∀ f, m.getFunction name = some f → (defineFunction m name).isSome = true) := by
  constructor
  · intro h
    simp [defineFunction, h]
  · intro f hf
    simp [defineFunction, hf]

theorem defineFunction_requires_declaration_witness :
    defineFunction { globals := [], functions := [] } "main" = none :=
  (defineFunction_requires_declaration { globals := [], functions := [] } "main").1 rfl

/-- Claim C9: `saveModuleIRToFile` captures the open error code but never
inspects it: no diagnostic, no abort, the observable process result is
identical to the success case — only the file content silently fails to
reach disk. -/
theorem saveModuleIRToFile_ignores_error (m : Module) (ec : Nat) :
    (saveModuleIRToFile m ec).diagnostics = (saveModuleIRToFile m 0).diagnostics ∧
    (saveModuleIRToFile m ec).aborted = (saveModuleIRToFile m 0).aborted ∧
    (saveModuleIRToFile m ec).diagnostics = [] ∧
    (saveModuleIRToFile m ec).aborted = false ∧
    (ec ≠ 0 → (saveModuleIRToFile m ec).written = none) := by
  refine ⟨rfl, rfl, rfl, rfl, ?_⟩
  intro h
  simp [saveModuleIRToFile, h]

theorem saveModuleIRToFile_ignores_error_witness :
    (saveModuleIRToFile { globals := [], functions := [] } 2).aborted = false ∧
    (saveModuleIRToFile { globals := [], functions := [] } 2).written = none :=
  ⟨(saveModuleIRToFile_ignores_error { globals := [], functions := [] } 2).2.2.2.1,
   (saveModuleIRToFile_ignores_error { globals := [], functions := [] } 2).2.2.2.2
     (by decide)⟩

end IRB

namespace IRB

theorem find?_append_some {α : Type} (p : α → Bool) (l1 l2 : List α) {a : α}
    (h : l1.find? p = some a) : (l1 ++ l2).find? p = some a := by
  induction l1 with
  | nil => simp at h
  | cons b l ih =>
    cases hpb : p b with
    | true =>
      simp only [List.find?_cons, hpb] at h
      simpa [List.find?_cons, hpb] using h
    | false =>
      simp only [List.find?_cons, hpb] at h
      simpa [List.find?_cons, hpb] using ih h

theorem find?_map_name_preserving (h : GlobalVar → GlobalVar)
    (hname : ∀ g, (h g).name = g.name) (nm : String) (gs : List GlobalVar) :
    (gs.map h).find? (fun g => g.name = nm)
      = (gs.find? (fun g => g.name = nm)).map h := by
  induction gs with
  | nil => simp
  | cons a l ih =>
    simp only [List.map_cons, List.find?_cons, hname a]
    by_cases hh : a.name = nm
    · simp [hh]
    · simp [hh, ih]

theorem mem_getOrInsertGlobal (m : Module) (name : String) (ty : Ty)
    (a : GlobalVar) (ha : a ∈ (m.getOrInsertGlobal name ty).globals) :
    a ∈ m.globals ∨ a = { name := name, valueType := ty } := by
  unfold Module.getOrInsertGlobal at ha
  cases h : m.getNamedGlobal name with
  | some g => rw [h] at ha; exact Or.inl ha
  | none =>
    rw [h] at ha
    rw [show ({ m with globals := m.globals ++ [{ name := name, valueType := ty }]} :
        Module).globals = m.globals ++ [{ name := name, valueType := ty }] from rfl]
        at ha
    rcases List.mem_append.mp ha with h1 | h1
    · exact Or.inl h1
    · exact Or.inr (List.mem_singleton.mp h1)

/-- Unfolding equation for `defineGlobalVariable`. -/
theorem defineGlobalVariable_eq (m : Module) (ty : Ty) (name : String)
    (init : Const) :
    defineGlobalVariable m ty name init
      = ((m.getOrInsertGlobal name ty).updateGlobal name (fun _ =>
           setDSOLocal (setInitializer
             (((m.getOrInsertGlobal name ty).getNamedGlobal name).getD
               { name := name, valueType := ty }) init) true),
         setDSOLocal (setInitializer
           (((m.getOrInsertGlobal name ty).getNamedGlobal name).getD
             { name := name, valueType := ty }) init) true) := rfl

/-- `defineGlobalVariable` on a name that already exists: the module is not
extended, the existing global is rewritten in place. -/
theorem defineGlobalVariable_found_eq (m : Module) (ty : Ty) (name : String)
    (init : Const) (g : GlobalVar) (hg : m.getNamedGlobal name = some g) :
    defineGlobalVariable m ty name init
      = (m.updateGlobal name (fun _ => setDSOLocal (setInitializer g init) true),
         setDSOLocal (setInitializer g init) true) := by
  have hins : m.getOrInsertGlobal name ty = m := by
    unfold Module.getOrInsertGlobal
    rw [hg]
  rw [defineGlobalVariable_eq, hins, hg]
  rfl

theorem updateGlobal_globals (m : Module) (n : String) (f : GlobalVar → GlobalVar) :
    (m.updateGlobal n f).globals
      = m.globals.map (fun g => if g.name = n then f g else g) := rfl

theorem updateGlobal_getNamedGlobal_same (m : Module) (n : String)
    (f : GlobalVar → GlobalVar) (hf : ∀ g : GlobalVar, g.name = n → (f g).name = n) :
    (m.updateGlobal n f).getNamedGlobal n = (m.getNamedGlobal n).map f := by
  unfold Module.getNamedGlobal
  rw [updateGlobal_globals]
  exact find?_update_list n f hf m.globals

theorem updateGlobal_getNamedGlobal_other (m : Module) (n : String)
    (f : GlobalVar → GlobalVar) (name : String)
    (hf : ∀ g : GlobalVar, g.name = n → (f g).name = n) (hne : name ≠ n) :
    (m.updateGlobal n f).getNamedGlobal name = m.getNamedGlobal name := by
  unfold Module.getNamedGlobal
  rw [updateGlobal_globals]
  exact find?_update_list_other n name f hf hne m.globals

theorem updateGlobal_getNamedGlobal_presname (m : Module) (n : String)
    (f : GlobalVar → GlobalVar) (hfname : ∀ g, (f g).name = g.name) (name : String) :
    (m.updateGlobal n f).getNamedGlobal name
      = (m.getNamedGlobal name).map (fun g => if g.name = n then f g else g) := by
  have hpres : ∀ g' : GlobalVar, ((fun g' => if g'.name = n then f g' else g') g').name
      = g'.name := by
    intro g'
    by_cases h : g'.name = n
    · simp [h, hfname]
    · simp [h]
  unfold Module.getNamedGlobal
  rw [updateGlobal_globals]
  exact find?_map_name_preserving _ hpres name m.globals

/-- The name of the global `defineGlobalVariable` writes back is the
requested name (whether it found an existing global or inserted one). -/
theorem defineGlobalVariable_snd_name (m : Module) (ty : Ty) (name : String)
    (init : Const) : (defineGlobalVariable m ty name init).2.name = name := by
  simp only [defineGlobalVariable, setDSOLocal, setInitializer]
  rw [getOrInsertGlobal_getNamedGlobal]
  cases h : m.getNamedGlobal name with
  | some g => simpa using (getNamedGlobal_mem m name g h).2
  | none => simp

/-- `defineGlobalVariable` for one name leaves every global of another name
untouched, and the redefined name keeps its identity (name, value type) and
always ends with an initializer present. -/
theorem defineGlobalVariable_stable (m : Module) (ty2 : Ty) (name2 : String)
    (init2 : Const) (name : String) (g : GlobalVar)
    (hg : m.getNamedGlobal name = some g) :
    ∃ g', (defineGlobalVariable m ty2 name2 init2).1.getNamedGlobal name = some g' ∧
      g'.name = g.name ∧ g'.valueType = g.valueType ∧
      (g.init.isSome → g'.init.isSome) := by
  by_cases hn : name = name2
  · subst hn
    have hgname : g.name = name := (getNamedGlobal_mem m name g hg).2
    have hf : ∀ g' : GlobalVar, g'.name = name →
        (setDSOLocal (setInitializer g init2) true).name = name := by
      intro g' _
      simpa [setDSOLocal, setInitializer] using hgname
    refine ⟨setDSOLocal (setInitializer g init2) true, ?_, ?_, ?_, ?_⟩
    · rw [defineGlobalVariable_found_eq m ty2 name init2 g hg]
      rw [updateGlobal_getNamedGlobal_same m name _ hf, hg]
      rfl
    · simp [setDSOLocal, setInitializer]
    · simp [setDSOLocal, setInitializer]
    · intro _
      simp [setDSOLocal, setInitializer]
  · have h1 : (m.getOrInsertGlobal name2 ty2).getNamedGlobal name = some g := by
      unfold Module.getOrInsertGlobal
      cases h : m.getNamedGlobal name2 with
      | some _ => exact hg
      | none =>
        unfold Module.getNamedGlobal at hg ⊢
        exact find?_append_some _ _ _ hg
    have hfn : ∀ g' : GlobalVar, g'.name = name2 →
        (setDSOLocal (setInitializer
          (((m.getOrInsertGlobal name2 ty2).getNamedGlobal name2).getD
            { name := name2, valueType := ty2 }) init2) true).name = name2 := by
      intro g' _
      rw [getOrInsertGlobal_getNamedGlobal]
      simp only [setDSOLocal, setInitializer, Option.getD_some]
      cases h : m.getNamedGlobal name2 with
      | some g2 => simpa using (getNamedGlobal_mem m name2 g2 h).2
      | none => simp
    refine ⟨g, ?_, rfl, rfl, fun h => h⟩
    rw [defineGlobalVariable_eq]
    rw [updateGlobal_getNamedGlobal_other _ name2 _ name hfn hn]
    exact h1

/-- An `updateGlobal` whose update function preserves name, value type and
initializer leaves every lookup's relevant fields unchanged. -/
theorem updateGlobal_stable (m : Module) (n : String) (f : GlobalVar → GlobalVar)
    (hfname : ∀ g, (f g).name = g.name)
    (hfvt : ∀ g, (f g).valueType = g.valueType)
    (hfinit : ∀ g, (f g).init = g.init)
    (name : String) (g : GlobalVar) (hg : m.getNamedGlobal name = some g) :
    ∃ g', (m.updateGlobal n f).getNamedGlobal name = some g' ∧
      g'.name = g.name ∧ g'.valueType = g.valueType ∧ g'.init = g.init := by
  refine ⟨if g.name = n then f g else g, ?_, ?_, ?_, ?_⟩
  · rw [updateGlobal_getNamedGlobal_presname m n f hfname name, hg]
    rfl
  · by_cases h : g.name = n
    · simp [h, hfname]
    · simp [h]
  · by_cases h : g.name = n
    · simp [h, hfvt]
    · simp [h]
  · by_cases h : g.name = n
    · simp [h, hfinit]
    · simp [h]

/-- Every module operation of the emitters preserves the identity (name,
value type) of every existing global, and never removes an initializer. -/
theorem applyOp_stable (protos : String → FunProto) (m : Module) (op : MOp)
    (name : String) (g : GlobalVar) (hg : m.getNamedGlobal name = some g) :
    ∃ g', (applyOp protos m op).getNamedGlobal name = some g' ∧
      g'.name = g.name ∧ g'.valueType = g.valueType ∧
      (g.init.isSome → g'.init.isSome) := by
  cases op with
  | defG ty2 name2 init2 => exact defineGlobalVariable_stable m ty2 name2 init2 name g hg
  | defGInfer name2 init2 =>
    exact defineGlobalVariable_stable m init2.ty name2 init2 name g hg
  | declF name2 =>
    refine ⟨g, ?_, rfl, rfl, fun h => h⟩
    simp only [applyOp, declareFunction]
    cases h : m.getFunction name2 with
    | some f => exact hg
    | none => exact hg
  | econst f2 ty2 name2 init2 =>
    obtain ⟨g1, hg1, hn1, hv1, hi1⟩ :=
      defineGlobalVariable_stable m ty2 ("__constant." ++ f2 ++ "." ++ name2) init2
        name g hg
    obtain ⟨g2, hg2, hn2, hv2, hi2⟩ :=
      updateGlobal_stable (defineGlobalVariable m ty2
          ("__constant." ++ f2 ++ "." ++ name2) init2).1
        ("__constant." ++ f2 ++ "." ++ name2)
        (fun g => setLinkage { g with isConstant := true } .priv)
        (fun g => by simp [setLinkage]) (fun g => by simp [setLinkage])
        (fun g => by simp [setLinkage]) name g1 hg1
    refine ⟨g2, hg2, hn2.trans hn1, hv2.trans hv1, fun h => ?_⟩
    rw [hi2]
    exact hi1 h
  | estr content name2 =>
    refine ⟨g, ?_, rfl, rfl, fun h => h⟩
    unfold applyOp emitStringPtr Module.getNamedGlobal
    unfold Module.getNamedGlobal at hg
    exact find?_append_some _ _ _ hg

end IRB

namespace IRB

theorem defineGlobalVariable_fst (m : Module) (ty : Ty) (name : String)
    (init : Const) :
    (defineGlobalVariable m ty name init).1
      = (m.getOrInsertGlobal name ty).updateGlobal name (fun _ =>
          setDSOLocal (setInitializer
            (((m.getOrInsertGlobal name ty).getNamedGlobal name).getD
              { name := name, valueType := ty }) init) true) := by
  rw [defineGlobalVariable_eq]

theorem defineGlobalVariable_functions (m : Module) (ty : Ty) (name : String)
    (init : Const) :
    (defineGlobalVariable m ty name init).1.functions = m.functions := by
  rw [defineGlobalVariable_fst]
  unfold Module.getOrInsertGlobal
  cases h : m.getNamedGlobal name <;> rfl

/-- `defineGlobalVariable` preserves well-typed initializers, provided the
call respects the `setInitializer` contract. -/
theorem defineGlobalVariable_WTG (m : Module) (ty : Ty) (name : String)
    (init : Const) (hw : WTG m)
    (hok : init.ty = (match m.getNamedGlobal name with
                      | some g => g.valueType
                      | none => ty)) :
    WTG (defineGlobalVariable m ty name init).1 := by
  intro x hx c hc
  rw [defineGlobalVariable_fst, updateGlobal_globals, List.mem_map] at hx
  obtain ⟨a, ha, rfl⟩ := hx
  by_cases hn : a.name = name
  · rw [if_pos hn] at hc ⊢
    simp only [setDSOLocal, setInitializer, Option.some.injEq] at hc
    have hty : (setDSOLocal (setInitializer
        (((m.getOrInsertGlobal name ty).getNamedGlobal name).getD
          { name := name, valueType := ty }) init) true).valueType
      = (((m.getOrInsertGlobal name ty).getNamedGlobal name).getD
          { name := name, valueType := ty }).valueType := rfl
    rw [hty, getOrInsertGlobal_getNamedGlobal, Option.getD_some, ← hc]
    cases h : m.getNamedGlobal name with
    | some g2 =>
      simp only [h] at hok ⊢
      exact hok
    | none =>
      simp only [h] at hok ⊢
      exact hok
  · rw [if_neg hn] at hc ⊢
    rcases mem_getOrInsertGlobal m name ty a ha with h1 | rfl
    · exact hw a h1 c hc
    · exact absurd rfl hn

/-- An `updateGlobal` that changes neither value types nor initializers
preserves well-typedness. -/
theorem updateGlobal_WTG (m : Module) (n : String) (f : GlobalVar → GlobalVar)
    (hfvt : ∀ g, (f g).valueType = g.valueType)
    (hfinit : ∀ g, (f g).init = g.init) (hw : WTG m) :
    WTG (m.updateGlobal n f) := by
  intro x hx c hc
  rw [updateGlobal_globals, List.mem_map] at hx
  obtain ⟨a, ha, rfl⟩ := hx
  by_cases hn : a.name = n
  · rw [if_pos hn] at hc ⊢
    rw [hfinit] at hc
    rw [hfvt]
    exact hw a ha c hc
  · rw [if_neg hn] at hc ⊢
    exact hw a ha c hc

theorem declareFunction_globals (protos : String → FunProto) (m : Module)
    (name : String) : (declareFunction protos m name).1.globals = m.globals := by
  unfold declareFunction
  cases h : m.getFunction name <;> rfl

/-- Every emitter operation preserves the well-typed-initializer invariant
when it respects the `setInitializer` contract. -/
theorem applyOp_WTG (protos : String → FunProto) (m : Module) (op : MOp)
    (hw : WTG m) (hok : OpOK m op) : WTG (applyOp protos m op) := by
  cases op with
  | defG ty name init => exact defineGlobalVariable_WTG m ty name init hw hok
  | defGInfer name init =>
    apply defineGlobalVariable_WTG m init.ty name init hw
    simp only [OpOK] at hok
    cases h : m.getNamedGlobal name with
    | some g =>
      simp only [h] at hok ⊢
      exact hok
    | none =>
      simp only [h]
  | declF name =>
    intro x hx c hc
    rw [show (applyOp protos m (MOp.declF name)).globals
        = (declareFunction protos m name).1.globals from rfl,
      declareFunction_globals] at hx
    exact hw x hx c hc
  | econst f2 ty name init =>
    show WTG (((defineGlobalVariable m ty ("__constant." ++ f2 ++ "." ++ name)
        init).1).updateGlobal ("__constant." ++ f2 ++ "." ++ name)
        (fun g => setLinkage { g with isConstant := true } .priv))
    apply updateGlobal_WTG
    · intro g
      simp [setLinkage]
    · intro g
      simp [setLinkage]
    · exact defineGlobalVariable_WTG m ty _ init hw hok
  | estr content name =>
    intro x hx c hc
    rw [show (applyOp protos m (MOp.estr content name)).globals
        = m.globals ++ [stringGlobal content name] from rfl] at hx
    rcases List.mem_append.mp hx with h1 | h1
    · exact hw x h1 c hc
    · rw [List.mem_singleton] at h1
      subst h1
      simp only [stringGlobal, Option.some.injEq] at hc
      subst hc
      rfl

/-- Claim C2: every load emitted by `emitLoadValue` for a global uses the
type of the global's registered initializer; across any later sequence of
emitter operations (each respecting the `setInitializer` contract) the
global's value type, hence the effective loaded type, stays the type fixed
at its first definition. -/
theorem globalEffectiveTypeFixed (protos : String → FunProto) (ops : List MOp)
    (m : Module) (name : String) (g : GlobalVar)
    (hw : WTG m) (hops : OpsOK protos m ops)
    (hg : m.getNamedGlobal name = some g) :
    ∃ g', (applyOps protos m ops).getNamedGlobal name = some g' ∧
      g'.name = g.name ∧
      g'.valueType = g.valueType ∧
      (∀ c, g'.init = some c → c.ty = g.valueType) ∧
      (g.init.isSome → emitLoadValueG g' = some (g.valueType, g.name)) := by
  induction ops generalizing m g with
  | nil =>
    refine ⟨g, hg, rfl, rfl, ?_, ?_⟩
    · intro c hc
      exact hw g (getNamedGlobal_mem m name g hg).1 c hc
    · intro hi
      obtain ⟨c, hc⟩ := Option.isSome_iff_exists.mp hi
      unfold emitLoadValueG
      rw [hc]
      simp only [Option.map_some']
      rw [hw g (getNamedGlobal_mem m name g hg).1 c hc]
  | cons op rest ih =>
    obtain ⟨hop, hrest⟩ := hops
    obtain ⟨g1, hg1, hn1, hv1, hi1⟩ := applyOp_stable protos m op name g hg
    have hw1 := applyOp_WTG protos m op hw hop
    obtain ⟨g', hg', hn', hv', hty', hload'⟩ :=
      ih (applyOp protos m op) g1 hw1 hrest hg1
    refine ⟨g', hg', hn'.trans hn1, hv'.trans hv1, ?_, ?_⟩
    · intro c hc
      rw [hty' c hc, hv1]
    · intro hi
      rw [hload' (hi1 hi), hv1, hn1]

theorem globalEffectiveTypeFixed_witness :
    ∃ g', (applyOps sampleProtos sampleModuleG
        [MOp.defG (.int 32) "g" (.int 32 9), MOp.declF "main",
         MOp.estr "hi" "s"]).getNamedGlobal "g" = some g' ∧
      g'.name = sampleOldGlobal.name ∧
      g'.valueType = sampleOldGlobal.valueType ∧
      (∀ c, g'.init = some c → c.ty = sampleOldGlobal.valueType) ∧
      (sampleOldGlobal.init.isSome →
        emitLoadValueG g' = some (sampleOldGlobal.valueType, sampleOldGlobal.name)) :=
  globalEffectiveTypeFixed sampleProtos
    [MOp.defG (.int 32) "g" (.int 32 9), MOp.declF "main", MOp.estr "hi" "s"]
    sampleModuleG "g" sampleOldGlobal
    (by
      intro g hgm c hc
      rw [show sampleModuleG.globals = [sampleOldGlobal] from rfl,
        List.mem_singleton] at hgm
      subst hgm
      cases hc
      rfl)
    ⟨rfl, trivial, trivial, trivial⟩
    rfl

end IRB

namespace IRB

/-- The dso_local invariant: every global and every function of the module
carries the flag. -/
def DsoInv (m : Module) : Prop :=
  (∀ g ∈ m.globals, g.dsoLocal = true) ∧ (∀ f ∈ m.functions, f.dsoLocal = true)

theorem defineGlobalVariable_dso (m : Module) (ty : Ty) (name : String)
    (init : Const) (h : ∀ g ∈ m.globals, g.dsoLocal = true) :
    ∀ g' ∈ (defineGlobalVariable m ty name init).1.globals, g'.dsoLocal = true := by
  intro x hx
  rw [defineGlobalVariable_fst, updateGlobal_globals, List.mem_map] at hx
  obtain ⟨a, ha, rfl⟩ := hx
  by_cases hn : a.name = name
  · rw [if_pos hn]
    rfl
  · rw [if_neg hn]
    rcases mem_getOrInsertGlobal m name ty a ha with h1 | rfl
    · exact h a h1
    · exact absurd rfl hn

theorem updateGlobal_dso (m : Module) (n : String) (f : GlobalVar → GlobalVar)
    (hf : ∀ g : GlobalVar, g.dsoLocal = true → (f g).dsoLocal = true)
    (h : ∀ g ∈ m.globals, g.dsoLocal = true) :
    ∀ g' ∈ (m.updateGlobal n f).globals, g'.dsoLocal = true := by
  intro x hx
  rw [updateGlobal_globals, List.mem_map] at hx
  obtain ⟨a, ha, rfl⟩ := hx
  by_cases hn : a.name = n
  · rw [if_pos hn]
    exact hf a (h a ha)
  · rw [if_neg hn]
    exact h a ha

theorem updateGlobal_functions (m : Module) (n : String)
    (f : GlobalVar → GlobalVar) : (m.updateGlobal n f).functions = m.functions := rfl

theorem getOrInsertGlobal_functions (m : Module) (name : String) (ty : Ty) :
    (m.getOrInsertGlobal name ty).functions = m.functions := by
  unfold Module.getOrInsertGlobal
  cases h : m.getNamedGlobal name <;> rfl

/-- Every emitter operation preserves the dso_local invariant: the two
creation paths named by the claim set the flag explicitly, `emitConstant`'s
relinking keeps it, and `CreateGlobalString`'s private global carries it
implicitly. -/
theorem applyOp_dso (protos : String → FunProto) (m : Module) (op : MOp)
    (h : DsoInv m) : DsoInv (applyOp protos m op) := by
  obtain ⟨hg, hf⟩ := h
  cases op with
  | defG ty name init =>
    refine ⟨defineGlobalVariable_dso m ty name init hg, ?_⟩
    rw [show (applyOp protos m (MOp.defG ty name init)).functions
        = (defineGlobalVariable m ty name init).1.functions from rfl,
      defineGlobalVariable_functions]
    exact hf
  | defGInfer name init =>
    refine ⟨defineGlobalVariable_dso m init.ty name init hg, ?_⟩
    rw [show (applyOp protos m (MOp.defGInfer name init)).functions
        = (defineGlobalVariable m init.ty name init).1.functions from rfl,
      defineGlobalVariable_functions]
    exact hf
  | declF name =>
    constructor
    · rw [show (applyOp protos m (MOp.declF name)).globals
          = (declareFunction protos m name).1.globals from rfl,
        declareFunction_globals]
      exact hg
    · intro x hx
      simp only [applyOp, declareFunction] at hx
      cases hm : m.getFunction name with
      | some f2 =>
        rw [hm] at hx
        exact hf x hx
      | none =>
        rw [hm] at hx
        simp only [List.mem_append] at hx
        rcases hx with h1 | h1
        · exact hf x h1
        · rw [List.mem_singleton] at h1
          subst h1
          rfl
  | econst f2 ty name init =>
    constructor
    · show ∀ g' ∈ (((defineGlobalVariable m ty ("__constant." ++ f2 ++ "." ++ name)
          init).1).updateGlobal ("__constant." ++ f2 ++ "." ++ name)
          (fun g => setLinkage { g with isConstant := true } .priv)).globals,
        g'.dsoLocal = true
      apply updateGlobal_dso
      · intro g hgd
        simp [setLinkage, hgd]
      · exact defineGlobalVariable_dso m ty _ init hg
    · rw [show (applyOp protos m (MOp.econst f2 ty name init)).functions
          = (defineGlobalVariable m ty ("__constant." ++ f2 ++ "." ++ name)
              init).1.functions from rfl,
        defineGlobalVariable_functions]
      exact hf
  | estr content name =>
    constructor
    · intro x hx
      rw [show (applyOp protos m (MOp.estr content name)).globals
          = m.globals ++ [stringGlobal content name] from rfl] at hx
      rcases List.mem_append.mp hx with h1 | h1
      · exact hg x h1
      · rw [List.mem_singleton] at h1
        subst h1
        rfl
    · exact hf

theorem applyOps_dso (protos : String → FunProto) (ops : List MOp) (m : Module)
    (h : DsoInv m) : DsoInv (applyOps protos m ops) := by
  induction ops generalizing m with
  | nil => exact h
  | cons op rest ih => exact ih (applyOp protos m op) (applyOp_dso protos m op h)

/-- Claim C10: starting from the empty module, after any sequence of emitter
operations every global variable and every function in the module carries the
dso_local flag: `defineGlobalVariable` and `declareFunction` set it at
creation, and the remaining creation path (`CreateGlobalString`) yields a
private global that is implicitly dso_local. -/
theorem emitter_everything_dsoLocal (protos : String → FunProto) (ops : List MOp) :
    (∀ g ∈ (applyOps protos { globals := [], functions := [] } ops).globals,
      g.dsoLocal = true) ∧
    (∀ f ∈ (applyOps protos { globals := [], functions := [] } ops).functions,
      f.dsoLocal = true) :=
  applyOps_dso protos ops { globals := [], functions := [] }
    ⟨fun g hg => absurd hg (List.not_mem_nil g), fun f hf => absurd hf (List.not_mem_nil f)⟩

end IRB

namespace IRB

/-- A run-time base object: a named module global or a numbered stack
allocation. -/
inductive Base where
  | global (gname : String)
  | stack (id : Nat)
deriving DecidableEq, Repr

/-- One aggregate navigation step of an address computation: selecting a
struct field or an array element. -/
inductive PathStep where
  | field (i : Nat)
  | elem (i : Int)
deriving DecidableEq, Repr

/-- A symbolic address: base object, displacement in whole objects, and the
aggregate path produced by address computations. -/
structure Addr where
  base : Base
  disp : Int
  path : List PathStep
deriving DecidableEq, Repr

/-- Run-time values: integers of a given width (carried as their signed
value), pointers, and poison (the result of `nsw` overflow). -/
inductive MVal where
  | int (w : Nat) (v : Int)
  | ptr (a : Addr)
  | poison
deriving DecidableEq, Repr

/-- Instruction operands: SSA registers, integer constants, addresses of
module globals. -/
inductive Operand where
  | reg (n : Nat)
  | cint (w : Nat) (v : Int)
  | glob (g : String)
deriving DecidableEq, Repr

/-- The IR instructions the emitters produce (straight-line part). -/
inductive Instr where
  | alloca (dst : Nat) (ty : Ty) (nm : String)
  | load (dst : Nat) (ty : Ty) (src : Operand)
  | store (val : Operand) (dst : Operand)
  | gep (dst : Nat) (ty : Ty) (base : Operand) (idxs : List Operand)
  | sext (dst : Nat) (src : Operand) (toTy : Ty)
  | icmpSle (dst : Nat) (a : Operand) (b : Operand)
  | addNsw (dst : Nat) (a : Operand) (b : Operand)

/-- Block terminators. -/
inductive Terminator where
  | br (l : String)
  | condbr (c : Operand) (t : String) (f : String)
  | ret (v : Option Operand)

/-- A basic block: name, instructions, terminator. -/
structure Block where
  bname : String
  instrs : List Instr
  term : Terminator

/-- Machine state: register file, memory, stack-allocation counter. -/
structure State where
  regs : Nat → MVal
  mem : Addr → Option MVal
  nextStack : Nat

def updReg (regs : Nat → MVal) (n : Nat) (v : MVal) : Nat → MVal :=
  fun m => if m = n then v else regs m

def updMem (mem : Addr → Option MVal) (a : Addr) (v : MVal) :
    Addr → Option MVal :=
  fun x => if x = a then some v else mem x

@[simp] theorem updReg_same (regs : Nat → MVal) (n : Nat) (v : MVal) :
    updReg regs n v n = v := by
  simp [updReg]

@[simp] theorem updReg_other (regs : Nat → MVal) (n : Nat) (v : MVal) (m : Nat)
    (h : m ≠ n) : updReg regs n v m = regs m := by
  simp [updReg, h]

@[simp] theorem updMem_same (mem : Addr → Option MVal) (a : Addr) (v : MVal) :
    updMem mem a v a = some v := by
  simp [updMem]

@[simp] theorem updMem_other (mem : Addr → Option MVal) (a : Addr) (v : MVal)
    (x : Addr) (h : x ≠ a) : updMem mem a v x = mem x := by
  simp [updMem, h]

/-- The address of a module global. -/
def gaddr (g : String) : Addr := ⟨.global g, 0, []⟩

def evalOp (regs : Nat → MVal) : Operand → MVal
  | .reg n => regs n
  | .cint w v => .int w v
  | .glob g => .ptr (gaddr g)

/-- Navigate the trailing indices of a `getelementptr` through an aggregate
type: a struct index selects a field, an array index selects an element. -/
def gepInner : Ty → List Int → Option (List PathStep × Ty)
  | t, [] => some ([], t)
  | .strukt sn fs, i :: rest =>
    if h : 0 ≤ i ∧ i.toNat < fs.length then
      match gepInner (fs.get ⟨i.toNat, h.2⟩) rest with
      | some (p, rt) => some (.field i.toNat :: p, rt)
      | none => none
    else none
  | .arr t _, i :: rest =>
    match gepInner t rest with
    | some (p, rt) => some (.elem i :: p, rt)
    | none => none
  | _, _ :: _ => none

/-- Resolve a full `getelementptr` index list against the pointed-to type:
the mandatory first index displaces whole objects of that type; the
remaining indices navigate into the aggregate. -/
def gepResolve (ty : Ty) : List Int → Option (Int × List PathStep × Ty)
  | [] => none
  | d :: rest =>
    match gepInner ty rest with
    | some (p, rt) => some (d, p, rt)
    | none => none

/-- Apply a resolved `getelementptr` to a concrete address. -/
def gepAddr (a : Addr) (ty : Ty) (idxs : List Int) : Option (Addr × Ty) :=
  match gepResolve ty idxs with
  | some (d, p, rt) => some (⟨a.base, a.disp + d, a.path ++ p⟩, rt)
  | none => none

def evalIdxs (regs : Nat → MVal) : List Operand → Option (List Int)
  | [] => some []
  | o :: rest =>
    match evalOp regs o with
    | .int _ v => (evalIdxs regs rest).map (fun is => v :: is)
    | _ => none

/-- One instruction of the emitted IR.  Loads from unwritten cells give
poison (undef); `add nsw` gives poison on signed overflow; branching through
an ill-typed operand or storing through a non-pointer is stuck (`none`). -/
def execInstr (st : State) : Instr → Option State
  | .alloca dst _ty _nm =>
    some { regs := updReg st.regs dst (.ptr ⟨.stack st.nextStack, 0, []⟩),
           mem := st.mem, nextStack := st.nextStack + 1 }
  | .load dst _ty src =>
    match evalOp st.regs src with
    | .ptr a => some { st with regs := updReg st.regs dst ((st.mem a).getD .poison) }
    | _ => none
  | .store val dst =>
    match evalOp st.regs dst with
    | .ptr a => some { st with mem := updMem st.mem a (evalOp st.regs val) }
    | _ => none
  | .gep dst ty base idxs =>
    match evalOp st.regs base with
    | .ptr a =>
      match evalIdxs st.regs idxs with
      | some is =>
        match gepAddr a ty is with
        | some (a2, _) => some { st with regs := updReg st.regs dst (.ptr a2) }
        | none => none
      | none => some { st with regs := updReg st.regs dst .poison }
    | .poison => some { st with regs := updReg st.regs dst .poison }
    | _ => none
  | .sext dst src toTy =>
    match toTy with
    | .int w2 =>
      match evalOp st.regs src with
      | .int _ v => some { st with regs := updReg st.regs dst (.int w2 v) }
      | .poison => some { st with regs := updReg st.regs dst .poison }
      | _ => none
    | _ => none
  | .icmpSle dst a b =>
    match evalOp st.regs a, evalOp st.regs b with
    | .int _ va, .int _ vb =>
      some { st with regs := updReg st.regs dst (.int 1 (if va ≤ vb then 1 else 0)) }
    | .poison, _ => some { st with regs := updReg st.regs dst .poison }
    | _, .poison => some { st with regs := updReg st.regs dst .poison }
    | _, _ => none
  | .addNsw dst a b =>
    match evalOp st.regs a, evalOp st.regs b with
    | .int w va, .int _ vb =>
      if -(2 ^ (w - 1) : Int) ≤ va + vb ∧ va + vb < 2 ^ (w - 1) then
        some { st with regs := updReg st.regs dst (.int w (va + vb)) }
      else
        some { st with regs := updReg st.regs dst .poison }
    | .poison, _ => some { st with regs := updReg st.regs dst .poison }
    | _, .poison => some { st with regs := updReg st.regs dst .poison }
    | _, _ => none

def execList (st : State) : List Instr → Option State
  | [] => some st
  | i :: rest =>
    match execInstr st i with
    | some st2 => execList st2 rest
    | none => none

def findBlock (bs : List Block) (l : String) : Option Block :=
  bs.find? (fun b => b.bname = l)

/-- Run a control-flow graph for `fuel` block entries, counting how many
times the block named `body` is entered; a `ret` returns the count and the
returned value. -/
def runBlocks (bs : List Block) : Nat → String → State → Nat →
    Option (Nat × Option MVal)
  | 0, _, _, _ => none
  | fuel + 1, l, st, cnt =>
    match findBlock bs l with
    | none => none
    | some b =>
      let cnt2 := if l = "body" then cnt + 1 else cnt
      match execList st b.instrs with
      | none => none
      | some st2 =>
        match b.term with
        | .br l2 => runBlocks bs fuel l2 st2 cnt2
        | .condbr c t f =>
          match evalOp st2.regs c with
          | .int 1 1 => runBlocks bs fuel t st2 cnt2
          | .int 1 0 => runBlocks bs fuel f st2 cnt2
          | _ => none
        | .ret v => some (cnt2, v.map (evalOp st2.regs))

end IRB

namespace IRB

/-- `entry` of both loop emitters: allocate `index`, load global `start`
(at its initializer's type i32), store it into `index`, branch to
`condition`. -/
def entryInstrs : List Instr :=
  [ .alloca 0 (.int 32) "index",
    .load 1 (.int 32) (.glob "start"),
    .store (.reg 1) (.reg 0) ]

/-- `condition` of both loop emitters: load `index`, load global `end`,
compare with signed less-or-equal. -/
def conditionInstrs : List Instr :=
  [ .load 2 (.int 32) (.reg 0),
    .load 3 (.int 32) (.glob "end"),
    .icmpSle 4 (.reg 2) (.reg 3) ]

/-- `body` of the for-form: `result = result + index` (nsw add). -/
def forBodyInstrs : List Instr :=
  [ .load 5 (.int 32) (.glob "result"),
    .load 6 (.int 32) (.reg 0),
    .addNsw 7 (.reg 5) (.reg 6),
    .store (.reg 7) (.glob "result") ]

/-- `increment` of the for-form: `index = index + 1` (genIncrement, nsw). -/
def incrementInstrs : List Instr :=
  [ .load 8 (.int 32) (.reg 0),
    .addNsw 9 (.reg 8) (.cint 32 1),
    .store (.reg 9) (.reg 0) ]

/-- `body` of the while-form: the for-form body followed immediately by the
increment (no separate increment block). -/
def whileBodyInstrs : List Instr :=
  forBodyInstrs ++ incrementInstrs

/-- `end` of both loop emitters: load global `result` and return it. -/
def endInstrs : List Instr :=
  [ .load 10 (.int 32) (.glob "result") ]

/-- The control-flow graph emitted by `emitMainFunctionStatementList` of
`15_loop_for.cpp`: entry → condition → {body → increment → condition, end},
with registers numbered in emission order. -/
def forLoopBlocks : List Block :=
  [ ⟨"entry", entryInstrs, .br "condition"⟩,
    ⟨"condition", conditionInstrs, .condbr (.reg 4) "body" "end"⟩,
    ⟨"body", forBodyInstrs, .br "increment"⟩,
    ⟨"increment", incrementInstrs, .br "condition"⟩,
    ⟨"end", endInstrs, .ret (some (.reg 10))⟩ ]

/-- The control-flow graph emitted by `emitMainFunctionStatementList` of
`16_loop_while.cpp`: entry → condition → {body → condition, end}. -/
def whileLoopBlocks : List Block :=
  [ ⟨"entry", entryInstrs, .br "condition"⟩,
    ⟨"condition", conditionInstrs, .condbr (.reg 4) "body" "end"⟩,
    ⟨"body", whileBodyInstrs, .br "condition"⟩,
    ⟨"end", endInstrs, .ret (some (.reg 10))⟩ ]

/-- Initial state for a loop run: the globals `start`, `end`, `result` carry
their initializers (`start = s`, `end = e`, `result = 0`); registers hold
no defined values; no stack allocations yet. -/
def initLoopState (s e : Int) : State :=
  { regs := fun _ => .poison,
    mem := fun a =>
      if a = gaddr "start" then some (.int 32 s)
      else if a = gaddr "end" then some (.int 32 e)
      else if a = gaddr "result" then some (.int 32 0)
      else none,
    nextStack := 0 }

end IRB

namespace IRB

/-- Values that can sit in the `result` cell: a (possibly overflowed, hence
poison) integer. -/
def IntOrPoison (x : MVal) : Prop := (∃ w v, x = .int w v) ∨ x = .poison

theorem execList_condition (st : State) (lid : Nat) (iv e : Int)
    (h0 : st.regs 0 = .ptr ⟨.stack lid, 0, []⟩)
    (hidx : st.mem ⟨.stack lid, 0, []⟩ = some (.int 32 iv))
    (hend : st.mem (gaddr "end") = some (.int 32 e)) :
    ∃ st2, execList st conditionInstrs = some st2 ∧
      st2.regs 4 = .int 1 (if iv ≤ e then 1 else 0) ∧
      st2.regs 0 = st.regs 0 ∧
      st2.mem = st.mem ∧
      st2.nextStack = st.nextStack := by
  refine ⟨{ st with regs := updReg (updReg (updReg st.regs 2 (.int 32 iv))
      3 (.int 32 e)) 4 (.int 1 (if iv ≤ e then 1 else 0)) }, ?_, by simp, by simp, rfl, rfl⟩
  simp only [conditionInstrs, execList, execInstr, evalOp, h0, hidx, hend,
    Option.getD_some]
  simp

end IRB

namespace IRB

theorem execList_entry (st : State) (s : Int)
    (hstart : st.mem (gaddr "start") = some (.int 32 s)) :
    ∃ st2, execList st entryInstrs = some st2 ∧
      st2.regs 0 = .ptr ⟨.stack st.nextStack, 0, []⟩ ∧
      st2.mem = updMem st.mem ⟨.stack st.nextStack, 0, []⟩ (.int 32 s) := by
  refine ⟨{ st with
      regs := updReg (updReg st.regs 0 (.ptr ⟨.stack st.nextStack, 0, []⟩))
        1 (.int 32 s),
      mem := updMem st.mem ⟨.stack st.nextStack, 0, []⟩ (.int 32 s),
      nextStack := st.nextStack + 1 }, ?_, by simp, rfl⟩
  simp only [entryInstrs, execList, execInstr, evalOp, hstart, Option.getD_some]
  simp

theorem execList_forBody (st : State) (lid : Nat) (iv : Int) (rv : MVal)
    (h0 : st.regs 0 = .ptr ⟨.stack lid, 0, []⟩)
    (hidx : st.mem ⟨.stack lid, 0, []⟩ = some (.int 32 iv))
    (hres : st.mem (gaddr "result") = some rv)
    (hrvip : IntOrPoison rv) :
    ∃ st2 rv2, IntOrPoison rv2 ∧ execList st forBodyInstrs = some st2 ∧
      st2.regs 0 = st.regs 0 ∧
      st2.mem = updMem st.mem (gaddr "result") rv2 ∧
      st2.nextStack = st.nextStack := by
  rcases hrvip with ⟨w, v, rfl⟩ | rfl
  · by_cases hr : -(2 ^ (w - 1) : Int) ≤ v + iv ∧ v + iv < 2 ^ (w - 1)
    · refine ⟨{ st with
          regs := updReg (updReg (updReg st.regs 5 (.int w v)) 6 (.int 32 iv))
            7 (.int w (v + iv)),
          mem := updMem st.mem (gaddr "result") (.int w (v + iv)) },
        .int w (v + iv), Or.inl ⟨w, v + iv, rfl⟩, ?_, by simp, rfl, rfl⟩
      simp [forBodyInstrs, execList, execInstr, evalOp, h0, hidx, hres, hr]
    · refine ⟨{ st with
          regs := updReg (updReg (updReg st.regs 5 (.int w v)) 6 (.int 32 iv))
            7 .poison,
          mem := updMem st.mem (gaddr "result") .poison },
        .poison, Or.inr rfl, ?_, by simp, rfl, rfl⟩
      simp [forBodyInstrs, execList, execInstr, evalOp, h0, hidx, hres, hr]
  · refine ⟨{ st with
        regs := updReg (updReg (updReg st.regs 5 .poison) 6 (.int 32 iv))
          7 .poison,
        mem := updMem st.mem (gaddr "result") .poison },
      .poison, Or.inr rfl, ?_, by simp, rfl, rfl⟩
    simp [forBodyInstrs, execList, execInstr, evalOp, h0, hidx, hres]

theorem execList_increment (st : State) (lid : Nat) (iv : Int)
    (h0 : st.regs 0 = .ptr ⟨.stack lid, 0, []⟩)
    (hidx : st.mem ⟨.stack lid, 0, []⟩ = some (.int 32 iv))
    (hlo : -(2 ^ 31 : Int) ≤ iv + 1) (hhi : iv + 1 < 2 ^ 31) :
    ∃ st2, execList st incrementInstrs = some st2 ∧
      st2.regs 0 = st.regs 0 ∧
      st2.mem = updMem st.mem ⟨.stack lid, 0, []⟩ (.int 32 (iv + 1)) ∧
      st2.nextStack = st.nextStack := by
  refine ⟨{ st with
      regs := updReg (updReg st.regs 8 (.int 32 iv)) 9 (.int 32 (iv + 1)),
      mem := updMem st.mem ⟨.stack lid, 0, []⟩ (.int 32 (iv + 1)) },
    ?_, by simp, rfl, rfl⟩
  have hc : (-2147483648 : Int) ≤ iv + 1 ∧ iv + 1 < 2147483648 := by
    constructor <;> omega
  simp [incrementInstrs, execList, execInstr, evalOp, h0, hidx, hc]

theorem execList_endBlock (st : State) (rv : MVal)
    (hres : st.mem (gaddr "result") = some rv) :
    ∃ st2, execList st endInstrs = some st2 ∧ st2.regs 10 = rv := by
  refine ⟨{ st with regs := updReg st.regs 10 rv }, ?_, by simp⟩
  simp only [endInstrs, execList, execInstr, evalOp, hres, Option.getD_some]

end IRB

namespace IRB

end IRB

namespace IRB

theorem runFor_entry (fuel : Nat) (st st2 : State) (cnt : Nat)
    (h : execList st entryInstrs = some st2) :
    runBlocks forLoopBlocks (fuel + 1) "entry" st cnt
      = runBlocks forLoopBlocks fuel "condition" st2 cnt := by
  simp only [runBlocks]
  rw [show findBlock forLoopBlocks "entry"
      = some ⟨"entry", entryInstrs, .br "condition"⟩ from rfl]
  simp only []
  rw [if_neg (show ¬ ("entry" : String) = "body" from by decide)]
  rw [h]

theorem runFor_condition_true (fuel : Nat) (st st2 : State) (cnt : Nat)
    (h : execList st conditionInstrs = some st2) (h4 : st2.regs 4 = .int 1 1) :
    runBlocks forLoopBlocks (fuel + 1) "condition" st cnt
      = runBlocks forLoopBlocks fuel "body" st2 cnt := by
  simp only [runBlocks]
  rw [show findBlock forLoopBlocks "condition"
      = some ⟨"condition", conditionInstrs, .condbr (.reg 4) "body" "end"⟩ from rfl]
  simp only []
  rw [if_neg (show ¬ ("condition" : String) = "body" from by decide)]
  rw [h]
  simp only []
  simp only [evalOp]
  rw [h4]
  rfl

theorem runFor_condition_false (fuel : Nat) (st st2 : State) (cnt : Nat)
    (h : execList st conditionInstrs = some st2) (h4 : st2.regs 4 = .int 1 0) :
    runBlocks forLoopBlocks (fuel + 1) "condition" st cnt
      = runBlocks forLoopBlocks fuel "end" st2 cnt := by
  simp only [runBlocks]
  rw [show findBlock forLoopBlocks "condition"
      = some ⟨"condition", conditionInstrs, .condbr (.reg 4) "body" "end"⟩ from rfl]
  simp only []
  rw [if_neg (show ¬ ("condition" : String) = "body" from by decide)]
  rw [h]
  simp only []
  simp only [evalOp]
  rw [h4]
  rfl

theorem runFor_body (fuel : Nat) (st st2 : State) (cnt : Nat)
    (h : execList st forBodyInstrs = some st2) :
    runBlocks forLoopBlocks (fuel + 1) "body" st cnt
      = runBlocks forLoopBlocks fuel "increment" st2 (cnt + 1) := by
  simp only [runBlocks]
  rw [show findBlock forLoopBlocks "body"
      = some ⟨"body", forBodyInstrs, .br "increment"⟩ from rfl]
  simp only []
  rw [h]
  simp

theorem runFor_increment (fuel : Nat) (st st2 : State) (cnt : Nat)
    (h : execList st incrementInstrs = some st2) :
    runBlocks forLoopBlocks (fuel + 1) "increment" st cnt
      = runBlocks forLoopBlocks fuel "condition" st2 cnt := by
  simp only [runBlocks]
  rw [show findBlock forLoopBlocks "increment"
      = some ⟨"increment", incrementInstrs, .br "condition"⟩ from rfl]
  simp only []
  rw [if_neg (show ¬ ("increment" : String) = "body" from by decide)]
  rw [h]

theorem runFor_end (fuel : Nat) (st st2 : State) (cnt : Nat)
    (h : execList st endInstrs = some st2) :
    runBlocks forLoopBlocks (fuel + 1) "end" st cnt
      = some (cnt, some (st2.regs 10)) := by
  simp only [runBlocks]
  rw [show findBlock forLoopBlocks "end"
      = some ⟨"end", endInstrs, .ret (some (.reg 10))⟩ from rfl]
  simp only []
  rw [if_neg (show ¬ ("end" : String) = "body" from by decide)]
  rw [h]
  simp only []
  simp [evalOp]

theorem runWhile_entry (fuel : Nat) (st st2 : State) (cnt : Nat)
    (h : execList st entryInstrs = some st2) :
    runBlocks whileLoopBlocks (fuel + 1) "entry" st cnt
      = runBlocks whileLoopBlocks fuel "condition" st2 cnt := by
  simp only [runBlocks]
  rw [show findBlock whileLoopBlocks "entry"
      = some ⟨"entry", entryInstrs, .br "condition"⟩ from rfl]
  simp only []
  rw [if_neg (show ¬ ("entry" : String) = "body" from by decide)]
  rw [h]

theorem runWhile_condition_true (fuel : Nat) (st st2 : State) (cnt : Nat)
    (h : execList st conditionInstrs = some st2) (h4 : st2.regs 4 = .int 1 1) :
    runBlocks whileLoopBlocks (fuel + 1) "condition" st cnt
      = runBlocks whileLoopBlocks fuel "body" st2 cnt := by
  simp only [runBlocks]
  rw [show findBlock whileLoopBlocks "condition"
      = some ⟨"condition", conditionInstrs, .condbr (.reg 4) "body" "end"⟩ from rfl]
  simp only []
  rw [if_neg (show ¬ ("condition" : String) = "body" from by decide)]
  rw [h]
  simp only []
  simp only [evalOp]
  rw [h4]
  rfl

theorem runWhile_condition_false (fuel : Nat) (st st2 : State) (cnt : Nat)
    (h : execList st conditionInstrs = some st2) (h4 : st2.regs 4 = .int 1 0) :
    runBlocks whileLoopBlocks (fuel + 1) "condition" st cnt
      = runBlocks whileLoopBlocks fuel "end" st2 cnt := by
  simp only [runBlocks]
  rw [show findBlock whileLoopBlocks "condition"
      = some ⟨"condition", conditionInstrs, .condbr (.reg 4) "body" "end"⟩ from rfl]
  simp only []
  rw [if_neg (show ¬ ("condition" : String) = "body" from by decide)]
  rw [h]
  simp only []
  simp only [evalOp]
  rw [h4]
  rfl

theorem runWhile_body (fuel : Nat) (st st2 : State) (cnt : Nat)
    (h : execList st whileBodyInstrs = some st2) :
    runBlocks whileLoopBlocks (fuel + 1) "body" st cnt
      = runBlocks whileLoopBlocks fuel "condition" st2 (cnt + 1) := by
  simp only [runBlocks]
  rw [show findBlock whileLoopBlocks "body"
      = some ⟨"body", whileBodyInstrs, .br "condition"⟩ from rfl]
  simp only []
  rw [h]
  simp

theorem runWhile_end (fuel : Nat) (st st2 : State) (cnt : Nat)
    (h : execList st endInstrs = some st2) :
    runBlocks whileLoopBlocks (fuel + 1) "end" st cnt
      = some (cnt, some (st2.regs 10)) := by
  simp only [runBlocks]
  rw [show findBlock whileLoopBlocks "end"
      = some ⟨"end", endInstrs, .ret (some (.reg 10))⟩ from rfl]
  simp only []
  rw [if_neg (show ¬ ("end" : String) = "body" from by decide)]
  rw [h]
  simp only []
  simp [evalOp]

end IRB

namespace IRB

theorem execList_append (st : State) (l1 l2 : List Instr) :
    execList st (l1 ++ l2)
      = match execList st l1 with
        | some st2 => execList st2 l2
        | none => none := by
  induction l1 generalizing st with
  | nil => rfl
  | cons i l ih =>
    simp only [List.cons_append, execList]
    cases h : execInstr st i with
    | none => rfl
    | some st2 => exact ih st2

theorem execList_whileBody (st : State) (lid : Nat) (iv : Int) (rv : MVal)
    (h0 : st.regs 0 = .ptr ⟨.stack lid, 0, []⟩)
    (hidx : st.mem ⟨.stack lid, 0, []⟩ = some (.int 32 iv))
    (hres : st.mem (gaddr "result") = some rv)
    (hrvip : IntOrPoison rv)
    (hlo : -(2 ^ 31 : Int) ≤ iv + 1) (hhi : iv + 1 < 2 ^ 31) :
    ∃ st2 rv2, IntOrPoison rv2 ∧ execList st whileBodyInstrs = some st2 ∧
      st2.regs 0 = st.regs 0 ∧
      st2.mem = updMem (updMem st.mem (gaddr "result") rv2)
        ⟨.stack lid, 0, []⟩ (.int 32 (iv + 1)) ∧
      st2.nextStack = st.nextStack := by
  obtain ⟨st3, rv2, hrvip3, hb, h03, hmem3, hns3⟩ :=
    execList_forBody st lid iv rv h0 hidx hres hrvip
  have h04 : st3.regs 0 = .ptr ⟨.stack lid, 0, []⟩ := by rw [h03, h0]
  have hidx3 : st3.mem ⟨.stack lid, 0, []⟩ = some (.int 32 iv) := by
    rw [hmem3, updMem_other _ _ _ _ (by simp [gaddr])]
    exact hidx
  obtain ⟨st4, hi4, h05, hmem4, hns4⟩ := execList_increment st3 lid iv h04 hidx3 hlo hhi
  refine ⟨st4, rv2, hrvip3, ?_, ?_, ?_, ?_⟩
  · rw [show whileBodyInstrs = forBodyInstrs ++ incrementInstrs from rfl,
      execList_append, hb]
    exact hi4
  · rw [h05, h03]
  · rw [hmem4, hmem3]
  · rw [hns4, hns3]

theorem forLoop_condition_count (e : Int) (lid : Nat) (k : Nat) :
    ∀ (iv : Int) (st : State) (cnt : Nat),
      st.regs 0 = MVal.ptr ⟨.stack lid, 0, []⟩ →
      st.mem ⟨.stack lid, 0, []⟩ = some (.int 32 iv) →
      st.mem (gaddr "end") = some (.int 32 e) →
      (∃ rv, st.mem (gaddr "result") = some rv ∧ IntOrPoison rv) →
      -(2 ^ 31 : Int) ≤ iv → e ≤ 2 ^ 31 - 2 →
      k = (e + 1 - iv).toNat →
      ∃ v, runBlocks forLoopBlocks (3 * k + 2) "condition" st cnt
        = some (cnt + k, v) := by
  induction k with
  | zero =>
    intro iv st cnt h0 hidx hend hres hlo he hk
    obtain ⟨rv, hres, hrvip⟩ := hres
    have hgt : ¬ iv ≤ e := by omega
    obtain ⟨st2, hc, h4, h40, hmem2, hns2⟩ := execList_condition st lid iv e h0 hidx hend
    have h4f : st2.regs 4 = .int 1 0 := by rw [h4, if_neg hgt]
    rw [show (3 * 0 + 2 : Nat) = 1 + 1 from rfl]
    rw [runFor_condition_false 1 st st2 cnt hc h4f]
    have hres2 : st2.mem (gaddr "result") = some rv := by
      rw [hmem2]
      exact hres
    obtain ⟨st3, hce, h10⟩ := execList_endBlock st2 rv hres2
    rw [runFor_end 0 st2 st3 cnt hce, h10]
    exact ⟨some rv, by simp⟩
  | succ k ih =>
    intro iv st cnt h0 hidx hend hres hlo he hk
    obtain ⟨rv, hres, hrvip⟩ := hres
    have hle : iv ≤ e := by omega
    obtain ⟨st2, hc, h4, h40, hmem2, hns2⟩ := execList_condition st lid iv e h0 hidx hend
    have h4t : st2.regs 4 = .int 1 1 := by rw [h4, if_pos hle]
    rw [show 3 * (k + 1) + 2 = 3 * k + 2 + 1 + 1 + 1 from by ring]
    rw [runFor_condition_true (3 * k + 2 + 1 + 1) st st2 cnt hc h4t]
    have h02 : st2.regs 0 = .ptr ⟨.stack lid, 0, []⟩ := by rw [h40, h0]
    have hidx2 : st2.mem ⟨.stack lid, 0, []⟩ = some (.int 32 iv) := by
      rw [hmem2]
      exact hidx
    have hres2 : st2.mem (gaddr "result") = some rv := by
      rw [hmem2]
      exact hres
    obtain ⟨st3, rv2, hrvip3, hb, h03, hmem3, hns3⟩ :=
      execList_forBody st2 lid iv rv h02 hidx2 hres2 hrvip
    rw [runFor_body (3 * k + 2 + 1) st2 st3 cnt hb]
    have h04 : st3.regs 0 = .ptr ⟨.stack lid, 0, []⟩ := by rw [h03, h02]
    have hidx3 : st3.mem ⟨.stack lid, 0, []⟩ = some (.int 32 iv) := by
      rw [hmem3, updMem_other _ _ _ _ (by simp [gaddr])]
      exact hidx2
    obtain ⟨st4, hi4, h05, hmem4, hns4⟩ :=
      execList_increment st3 lid iv h04 hidx3 (by omega) (by omega)
    rw [runFor_increment (3 * k + 2) st3 st4 (cnt + 1) hi4]
    have h06 : st4.regs 0 = .ptr ⟨.stack lid, 0, []⟩ := by rw [h05, h04]
    have hidx4 : st4.mem ⟨.stack lid, 0, []⟩ = some (.int 32 (iv + 1)) := by
      rw [hmem4]
      exact updMem_same _ _ _
    have hend4 : st4.mem (gaddr "end") = some (.int 32 e) := by
      rw [hmem4, updMem_other _ _ _ _ (by simp [gaddr]),
        hmem3, updMem_other _ _ _ _ (by simp [gaddr]), hmem2]
      exact hend
    have hres4 : ∃ rv', st4.mem (gaddr "result") = some rv' ∧ IntOrPoison rv' := by
      refine ⟨rv2, ?_, hrvip3⟩
      rw [hmem4, updMem_other _ _ _ _ (by simp [gaddr]), hmem3, updMem_same]
    obtain ⟨v, hv⟩ := ih (iv + 1) st4 (cnt + 1) h06 hidx4 hend4 hres4 (by omega) he
      (by omega)
    have hcount : cnt + 1 + k = cnt + (k + 1) := by omega
    rw [hcount] at hv
    exact ⟨v, hv⟩

theorem whileLoop_condition_count (e : Int) (lid : Nat) (k : Nat) :
    ∀ (iv : Int) (st : State) (cnt : Nat),
      st.regs 0 = MVal.ptr ⟨.stack lid, 0, []⟩ →
      st.mem ⟨.stack lid, 0, []⟩ = some (.int 32 iv) →
      st.mem (gaddr "end") = some (.int 32 e) →
      (∃ rv, st.mem (gaddr "result") = some rv ∧ IntOrPoison rv) →
      -(2 ^ 31 : Int) ≤ iv → e ≤ 2 ^ 31 - 2 →
      k = (e + 1 - iv).toNat →
      ∃ v, runBlocks whileLoopBlocks (2 * k + 2) "condition" st cnt
        = some (cnt + k, v) := by
  induction k with
  | zero =>
    intro iv st cnt h0 hidx hend hres hlo he hk
    obtain ⟨rv, hres, hrvip⟩ := hres
    have hgt : ¬ iv ≤ e := by omega
    obtain ⟨st2, hc, h4, h40, hmem2, hns2⟩ := execList_condition st lid iv e h0 hidx hend
    have h4f : st2.regs 4 = .int 1 0 := by rw [h4, if_neg hgt]
    rw [show (2 * 0 + 2 : Nat) = 1 + 1 from rfl]
    rw [runWhile_condition_false 1 st st2 cnt hc h4f]
    have hres2 : st2.mem (gaddr "result") = some rv := by
      rw [hmem2]
      exact hres
    obtain ⟨st3, hce, h10⟩ := execList_endBlock st2 rv hres2
    rw [runWhile_end 0 st2 st3 cnt hce, h10]
    exact ⟨some rv, by simp⟩
  | succ k ih =>
    intro iv st cnt h0 hidx hend hres hlo he hk
    obtain ⟨rv, hres, hrvip⟩ := hres
    have hle : iv ≤ e := by omega
    obtain ⟨st2, hc, h4, h40, hmem2, hns2⟩ := execList_condition st lid iv e h0 hidx hend
    have h4t : st2.regs 4 = .int 1 1 := by rw [h4, if_pos hle]
    rw [show 2 * (k + 1) + 2 = 2 * k + 2 + 1 + 1 from by ring]
    rw [runWhile_condition_true (2 * k + 2 + 1) st st2 cnt hc h4t]
    have h02 : st2.regs 0 = .ptr ⟨.stack lid, 0, []⟩ := by rw [h40, h0]
    have hidx2 : st2.mem ⟨.stack lid, 0, []⟩ = some (.int 32 iv) := by
      rw [hmem2]
      exact hidx
    have hres2 : st2.mem (gaddr "result") = some rv := by
      rw [hmem2]
      exact hres
    obtain ⟨st3, rv2, hrvip3, hb, h03, hmem3, hns3⟩ :=
      execList_whileBody st2 lid iv rv h02 hidx2 hres2 hrvip (by omega) (by omega)
    rw [runWhile_body (2 * k + 2) st2 st3 cnt hb]
    have h04 : st3.regs 0 = .ptr ⟨.stack lid, 0, []⟩ := by rw [h03, h02]
    have hidx3 : st3.mem ⟨.stack lid, 0, []⟩ = some (.int 32 (iv + 1)) := by
      rw [hmem3]
      exact updMem_same _ _ _
    have hend3 : st3.mem (gaddr "end") = some (.int 32 e) := by
      rw [hmem3, updMem_other _ _ _ _ (by simp [gaddr]),
        updMem_other _ _ _ _ (by simp [gaddr]), hmem2]
      exact hend
    have hres3 : ∃ rv', st3.mem (gaddr "result") = some rv' ∧ IntOrPoison rv' := by
      refine ⟨rv2, ?_, hrvip3⟩
      rw [hmem3, updMem_other _ _ _ _ (by simp [gaddr]), updMem_same]
    obtain ⟨v, hv⟩ := ih (iv + 1) st3 (cnt + 1) h04 hidx3 hend3 hres3 (by omega) he
      (by omega)
    have hcount : cnt + 1 + k = cnt + (k + 1) := by omega
    rw [hcount] at hv
    exact ⟨v, hv⟩

end IRB

namespace IRB

/-- Claim C1: for both loop emitters (the for-form of `15_loop_for.cpp` and
the while-form of `16_loop_while.cpp`), whose condition compares the signed
32-bit index initialized from `start` against `end` by signed `sle`,
executing the emitted control-flow graph runs the `body` block exactly
`max(0, end - start + 1)` times; when `start > end` the body runs zero
times.  The bounds keep the index increment inside the signed 32-bit range,
so no `nsw` poison reaches a branch. -/
theorem loops_body_count (s e : Int)
    (hs1 : -(2 ^ 31 : Int) ≤ s) (hs2 : s ≤ 2 ^ 31 - 1)
    (he1 : -(2 ^ 31 : Int) ≤ e) (he2 : e ≤ 2 ^ 31 - 2) :
    (∃ v, runBlocks forLoopBlocks (3 * (e + 1 - s).toNat + 3) "entry"
        (initLoopState s e) 0 = some ((max (e - s + 1) 0).toNat, v)) ∧
    (∃ v, runBlocks whileLoopBlocks (2 * (e + 1 - s).toNat + 3) "entry"
        (initLoopState s e) 0 = some ((max (e - s + 1) 0).toNat, v)) := by
  have hstart : (initLoopState s e).mem (gaddr "start") = some (.int 32 s) := by
    simp [initLoopState]
  have hmax : (max (e - s + 1) 0).toNat = (e + 1 - s).toNat := by
    rcases le_total (e - s + 1) 0 with h | h
    · rw [max_eq_right h]
      omega
    · rw [max_eq_left h]
      omega
  obtain ⟨st1, hentry, h01, hmem1⟩ := execList_entry (initLoopState s e) s hstart
  rw [show (initLoopState s e).nextStack = 0 from rfl] at h01 hmem1
  have hidx1 : st1.mem ⟨.stack 0, 0, []⟩ = some (.int 32 s) := by
    rw [hmem1]
    exact updMem_same _ _ _
  have hend1 : st1.mem (gaddr "end") = some (.int 32 e) := by
    rw [hmem1, updMem_other _ _ _ _ (by simp [gaddr])]
    simp [initLoopState, gaddr]
  have hres1 : ∃ rv, st1.mem (gaddr "result") = some rv ∧ IntOrPoison rv := by
    refine ⟨.int 32 0, ?_, Or.inl ⟨32, 0, rfl⟩⟩
    rw [hmem1, updMem_other _ _ _ _ (by simp [gaddr])]
    simp [initLoopState, gaddr]
  rw [hmax]
  constructor
  · rw [show 3 * (e + 1 - s).toNat + 3 = 3 * (e + 1 - s).toNat + 2 + 1 from by ring]
    rw [runFor_entry (3 * (e + 1 - s).toNat + 2) (initLoopState s e) st1 0 hentry]
    obtain ⟨v, hv⟩ := forLoop_condition_count e 0 ((e + 1 - s).toNat) s st1 0 h01
      hidx1 hend1 hres1 hs1 he2 rfl
    rw [Nat.zero_add] at hv
    exact ⟨v, hv⟩
  · rw [show 2 * (e + 1 - s).toNat + 3 = 2 * (e + 1 - s).toNat + 2 + 1 from by ring]
    rw [runWhile_entry (2 * (e + 1 - s).toNat + 2) (initLoopState s e) st1 0 hentry]
    obtain ⟨v, hv⟩ := whileLoop_condition_count e 0 ((e + 1 - s).toNat) s st1 0 h01
      hidx1 hend1 hres1 hs1 he2 rfl
    rw [Nat.zero_add] at hv
    exact ⟨v, hv⟩

theorem loops_body_count_witness :
    (∃ v, runBlocks forLoopBlocks (3 * ((10 : Int) + 1 - 1).toNat + 3) "entry"
        (initLoopState 1 10) 0 = some ((max ((10 : Int) - 1 + 1) 0).toNat, v)) ∧
    (∃ v, runBlocks whileLoopBlocks (2 * ((10 : Int) + 1 - 1).toNat + 3) "entry"
        (initLoopState 1 10) 0 = some ((max ((10 : Int) - 1 + 1) 0).toNat, v)) :=
  loops_body_count 1 10 (by decide) (by decide) (by decide) (by decide)

end IRB

namespace IRB

/-- A typed SSA value as the emitters handle it (`llvm::Value*`: an operand
together with its static type). -/
structure TVal where
  op : Operand
  ty : Ty

/-- `getStructOffset(offset)`: an i32 constant index. -/
def getStructOffset (v : Int) : Operand := .cint 32 v

/-- `getStructElementAddr(index, ptrval)`: emits exactly one inbounds
`getelementptr` over the pointee type of `ptrval`, with the two-level index
list `[i32 0, i32 index]`; returns the typed result value and the next free
register.  `none` when `ptrval` is not a pointer or the index does not name
a field (the LLVM GEP-construction contract). -/
def getStructElementAddrE (index : Int) (ptrval : TVal) (r : Nat) :
    Option (List Instr × TVal × Nat) := do
  let pty ← ptrval.ty.pointee
  let (_, rty) ← gepInner pty [index]
  return ([Instr.gep r pty ptrval.op [getStructOffset 0, getStructOffset index]],
    ⟨.reg r, .ptr rty⟩, r + 1)

/-- `getElementAddr(arrAddr, indexAddr)`: loads the array base pointer, loads
the current index value, sign-extends it to the 64-bit indexing width, and
emits a single inbounds `getelementptr` rooted at the loaded array base with
that one index. -/
def getElementAddrE (arrAddr : TVal) (indexAddr : TVal) (r : Nat) :
    Option (List Instr × TVal × Nat) := do
  let ty ← arrAddr.ty.pointee
  let baseType ← ty.pointee
  let indexType ← indexAddr.ty.pointee
  return ([Instr.load r ty arrAddr.op,
           Instr.load (r + 1) indexType indexAddr.op,
           Instr.sext (r + 2) (.reg (r + 1)) (.int 64),
           Instr.gep (r + 3) baseType (.reg r) [.reg (r + 2)]],
    ⟨.reg (r + 3), .ptr baseType⟩, r + 4)

/-- `getStructElementLValue(structAlloca, index)`: load the struct pointer
from the alloca, compute the field address, return it bare. -/
def getStructElementLValueE (structAlloca : TVal) (index : Int) (r : Nat) :
    Option (List Instr × TVal × Nat) := do
  let ty ← structAlloca.ty.pointee
  let (gInstrs, eAddr, r2) ← getStructElementAddrE index ⟨.reg r, ty⟩ (r + 1)
  return (Instr.load r ty structAlloca.op :: gInstrs, eAddr, r2)

/-- `getStructElementRValue(structAlloca, index)`: load the struct pointer,
compute the field address, and load the element at the struct's field type
(`dyn_cast<StructType>` and `getTypeAtIndex`). -/
def getStructElementRValueE (structAlloca : TVal) (index : Int) (r : Nat) :
    Option (List Instr × TVal × Nat) := do
  let ty ← structAlloca.ty.pointee
  let (gInstrs, eAddr, r2) ← getStructElementAddrE index ⟨.reg r, ty⟩ (r + 1)
  let sty ← ty.pointee
  match sty with
  | .strukt _ fields =>
    if h : 0 ≤ index ∧ index.toNat < fields.length then
      return (Instr.load r ty structAlloca.op :: (gInstrs ++
          [Instr.load r2 (fields.get ⟨index.toNat, h.2⟩) eAddr.op]),
        ⟨.reg r2, fields.get ⟨index.toNat, h.2⟩⟩, r2 + 1)
    else none
  | _ => none

end IRB

namespace IRB

/-- Claim C4: `getStructElementAddr` emits exactly one indexed address
computation with the two-level index list whose first index is the constant
0 (into the pointed-to aggregate itself) and whose second index is the field
index; the resulting address is that of field `i` of the pointed-to struct,
whereas a bare single-level index would select among repetitions of the
whole struct. -/
theorem getStructElementAddr_two_level (sname : String) (fields : List Ty)
    (ptrval : TVal) (i : Nat) (r : Nat)
    (hty : ptrval.ty = .ptr (.strukt sname fields)) (hi : i < fields.length) :
    ∃ tv,
      getStructElementAddrE (i : Int) ptrval r
        = some ([Instr.gep r (.strukt sname fields) ptrval.op
            [getStructOffset 0, getStructOffset (i : Int)]], tv, r + 1) ∧
      tv.op = .reg r ∧
      tv.ty = .ptr (fields.get ⟨i, hi⟩) ∧
      gepResolve (.strukt sname fields) [0, (i : Int)]
        = some (0, [PathStep.field i], fields.get ⟨i, hi⟩) ∧
      (∀ j : Int, gepResolve (.strukt sname fields) [j]
        = some (j, [], .strukt sname fields)) ∧
      (∀ (st : State) (a : Addr), evalOp st.regs ptrval.op = .ptr a →
        ∃ st2,
          execList st [Instr.gep r (.strukt sname fields) ptrval.op
            [getStructOffset 0, getStructOffset (i : Int)]] = some st2 ∧
          st2.regs r = .ptr ⟨a.base, a.disp, a.path ++ [PathStep.field i]⟩) := by
  have hnav : gepInner (.strukt sname fields) [(i : Int)]
      = some ([PathStep.field i], fields.get ⟨i, hi⟩) := by
    simp only [gepInner]
    rw [dif_pos (show 0 ≤ (i : Int) ∧ (i : Int).toNat < fields.length by
      constructor
      · exact Int.ofNat_nonneg i
      · simpa using hi)]
    simp
  refine ⟨⟨.reg r, .ptr (fields.get ⟨i, hi⟩)⟩, ?_, rfl, rfl, ?_, ?_, ?_⟩
  · simp only [getStructElementAddrE, hty, Ty.pointee, hnav, Option.bind_eq_bind,
      Option.some_bind]
    rfl
  · simp only [gepResolve, hnav]
  · intro j
    simp only [gepResolve, gepInner]
  · intro st a ha
    refine ⟨{ st with
        regs := updReg st.regs r (.ptr ⟨a.base, a.disp, a.path ++ [PathStep.field i]⟩) },
      ?_, by simp⟩
    simp only [execList, execInstr, ha]
    simp [evalIdxs, evalOp, gepAddr, gepResolve, hnav, getStructOffset]

end IRB

namespace IRB

/-- Two's-complement reading of a `w`-bit pattern. -/
def toSigned (w : Nat) (v : Nat) : Int :=
  if v < 2 ^ (w - 1) then (v : Int) else (v : Int) - 2 ^ w

/-- The 64-bit pattern `sext i32 → i64` produces from a 32-bit pattern:
the high 32 bits replicate the sign bit. -/
def sextPat32to64 (v : Nat) : Nat :=
  if v < 2 ^ 31 then v else v + (2 ^ 64 - 2 ^ 32)

/-- Sign extension preserves the signed value; this justifies the
interpreter carrying signed values unchanged through `sext`. -/
theorem sextPat_preserves_signed (v : Nat) (h : v < 2 ^ 32) :
    toSigned 64 (sextPat32to64 v) = toSigned 32 v := by
  unfold toSigned sextPat32to64
  by_cases h1 : v < 2 ^ 31
  · rw [if_pos h1]
    rw [if_pos (by omega : v < 2 ^ (64 - 1))]
    rw [if_pos (by omega : v < 2 ^ (32 - 1))]
  · rw [if_neg h1]
    rw [if_neg (by omega : ¬ v + (2 ^ 64 - 2 ^ 32) < 2 ^ (64 - 1))]
    rw [if_neg (by omega : ¬ v < 2 ^ (32 - 1))]
    push_cast
    omega

/-- Claim C5: `getElementAddr` first loads the array base pointer and the
current index value, sign-extends the index to the 64-bit indexing width
(value-preserving), and then computes the address of `array[index]` by a
single indexed address computation rooted at the array's base, returning an
address (of pointer-to-element type) suitable for a subsequent load or
store. -/
theorem getElementAddr_semantics (elemTy : Ty) (w : Nat) (na ni r : Nat)
    (hna : na < r) (hni : ni < r) :
    ∃ tv, getElementAddrE ⟨.reg na, .ptr (.ptr elemTy)⟩ ⟨.reg ni, .ptr (.int w)⟩ r
      = some ([Instr.load r (.ptr elemTy) (.reg na),
               Instr.load (r + 1) (.int w) (.reg ni),
               Instr.sext (r + 2) (.reg (r + 1)) (.int 64),
               Instr.gep (r + 3) elemTy (.reg r) [.reg (r + 2)]], tv, r + 4) ∧
      tv = ⟨.reg (r + 3), .ptr elemTy⟩ ∧
      (∀ v : Nat, v < 2 ^ 32 → toSigned 64 (sextPat32to64 v) = toSigned 32 v) ∧
      (∀ (st : State) (ca cidx A : Addr) (iv : Int),
        st.regs na = .ptr ca →
        st.regs ni = .ptr cidx →
        st.mem ca = some (.ptr A) →
        st.mem cidx = some (.int w iv) →
        ∃ st2,
          execList st [Instr.load r (.ptr elemTy) (.reg na),
            Instr.load (r + 1) (.int w) (.reg ni),
            Instr.sext (r + 2) (.reg (r + 1)) (.int 64),
            Instr.gep (r + 3) elemTy (.reg r) [.reg (r + 2)]] = some st2 ∧
          st2.regs (r + 2) = .int 64 iv ∧
          st2.regs (r + 3) = .ptr ⟨A.base, A.disp + iv, A.path⟩) := by
  refine ⟨⟨.reg (r + 3), .ptr elemTy⟩, ?_, rfl, sextPat_preserves_signed, ?_⟩
  · simp [getElementAddrE, Ty.pointee]
  · intro st ca cidx A iv hca hcidx hmca hmcidx
    have hne1 : ni ≠ r := by omega
    have hne2 : r + 1 ≠ r := by omega
    have hne3 : r + 2 ≠ r := by omega
    have hne4 : r + 2 ≠ r + 1 := by omega
    refine ⟨{ st with
        regs := updReg (updReg (updReg (updReg st.regs r (.ptr A))
          (r + 1) (.int w iv)) (r + 2) (.int 64 iv))
          (r + 3) (.ptr ⟨A.base, A.disp + iv, A.path⟩) },
      ?_, by simp [hne4], by simp⟩
    simp [execList, execInstr, evalOp, hca, hcidx, hmca, hmcidx, hne1, hne2, hne3,
      hne4, gepAddr, gepResolve, gepInner, evalIdxs]

end IRB

namespace IRB

theorem gepInner_field (sname : String) (fields : List Ty) (i : Nat)
    (hi : i < fields.length) :
    gepInner (.strukt sname fields) [(i : Int)]
      = some ([PathStep.field i], fields.get ⟨i, hi⟩) := by
  simp only [gepInner]
  rw [dif_pos (show 0 ≤ (i : Int) ∧ (i : Int).toNat < fields.length by
    constructor
    · exact Int.ofNat_nonneg i
    · simpa using hi)]
  simp

/-- Claim C8: taking a field's address through
`getStructElementAddr`/`getStructElementLValue`, storing a value through it,
and then reading the field back with `getStructElementRValue` at the same
index yields the stored value unchanged. -/
theorem struct_field_store_load_roundtrip (sname : String) (fields : List Ty)
    (i : Nat) (hi : i < fields.length) (n nv r : Nat) (hn : n < r) (hnv : nv < r) :
    ∃ li lv gi rv,
      getStructElementLValueE ⟨.reg n, .ptr (.ptr (.strukt sname fields))⟩
          (i : Int) r = some (li, lv, r + 2) ∧
      getStructElementRValueE ⟨.reg n, .ptr (.ptr (.strukt sname fields))⟩
          (i : Int) (r + 2) = some (gi, rv, r + 5) ∧
      rv.ty = fields.get ⟨i, hi⟩ ∧
      (∀ (st : State) (ca P : Addr) (v : MVal),
        st.regs n = .ptr ca →
        st.regs nv = v →
        st.mem ca = some (.ptr P) →
        ca.base ≠ P.base →
        ∃ st2,
          execList st (li ++ (Instr.store (.reg nv) lv.op :: gi)) = some st2 ∧
          evalOp st2.regs rv.op = v) := by
  have hnav := gepInner_field sname fields i hi
  have hvalid : 0 ≤ (i : Int) ∧ (i : Int).toNat < fields.length := by
    constructor
    · exact Int.ofNat_nonneg i
    · simpa using hi
  refine ⟨[Instr.load r (.ptr (.strukt sname fields)) (.reg n),
      Instr.gep (r + 1) (.strukt sname fields) (.reg r)
        [getStructOffset 0, getStructOffset (i : Int)]],
    ⟨.reg (r + 1), .ptr (fields.get ⟨i, hi⟩)⟩,
    [Instr.load (r + 2) (.ptr (.strukt sname fields)) (.reg n),
      Instr.gep (r + 3) (.strukt sname fields) (.reg (r + 2))
        [getStructOffset 0, getStructOffset (i : Int)],
      Instr.load (r + 4) (fields.get ⟨i, hi⟩) (.reg (r + 3))],
    ⟨.reg (r + 4), fields.get ⟨i, hi⟩⟩, ?_, ?_, rfl, ?_⟩
  · simp [getStructElementLValueE, getStructElementAddrE, Ty.pointee, hnav]
  · simp only [getStructElementRValueE, getStructElementAddrE, Ty.pointee, hnav,
      Option.bind_eq_bind, Option.some_bind, Option.pure_def]
    rw [dif_pos hvalid]
    simp
  · intro st ca P v hca hcv hmca hbase
    have hcaPf : ca ≠ ⟨P.base, P.disp, P.path ++ [PathStep.field i]⟩ := by
      intro h
      exact hbase (by rw [h])
    have hne1 : n ≠ r := by omega
    have hne2 : n ≠ r + 1 := by omega
    have hne3 : nv ≠ r := by omega
    have hne4 : nv ≠ r + 1 := by omega
    refine ⟨{ st with
        regs := updReg (updReg (updReg (updReg (updReg st.regs r (.ptr P))
          (r + 1) (.ptr ⟨P.base, P.disp, P.path ++ [PathStep.field i]⟩))
          (r + 2) (.ptr P))
          (r + 3) (.ptr ⟨P.base, P.disp, P.path ++ [PathStep.field i]⟩))
          (r + 4) v,
        mem := updMem st.mem ⟨P.base, P.disp, P.path ++ [PathStep.field i]⟩ v },
      ?_, by simp [evalOp]⟩
    simp [execList, execInstr, evalOp, hca, hcv, hmca, hne1, hne2, hne3, hne4,
      hcaPf, gepAddr, gepResolve, hnav, evalIdxs, getStructOffset]

end IRB

namespace IRB

theorem getStructElementAddr_two_level_witness :
    gepResolve (.strukt "struct.point" [.int 32, .int 32]) [0, ((1 : Nat) : Int)]
      = some (0, [PathStep.field 1], [Ty.int 32, Ty.int 32].get ⟨1, by decide⟩) := by
  obtain ⟨tv, h1, h2, h3, h4, h5, h6⟩ := getStructElementAddr_two_level "struct.point"
    [.int 32, .int 32] ⟨.reg 0, .ptr (.strukt "struct.point" [.int 32, .int 32])⟩
    1 5 rfl (by decide)
  exact h4

theorem getElementAddr_semantics_witness :
    ∃ tv, getElementAddrE ⟨.reg 0, .ptr (.ptr (.int 32))⟩ ⟨.reg 1, .ptr (.int 32)⟩ 2
      = some ([Instr.load 2 (.ptr (.int 32)) (.reg 0),
               Instr.load (2 + 1) (.int 32) (.reg 1),
               Instr.sext (2 + 2) (.reg (2 + 1)) (.int 64),
               Instr.gep (2 + 3) (.int 32) (.reg 2) [.reg (2 + 2)]], tv, 2 + 4) := by
  obtain ⟨tv, h1, h2, h3, h4⟩ := getElementAddr_semantics (.int 32) 32 0 1 2
    (by decide) (by decide)
  exact ⟨tv, h1⟩

theorem struct_field_store_load_roundtrip_witness :
    ∃ li lv gi rv,
      getStructElementLValueE ⟨.reg 0, .ptr (.ptr (.strukt "struct.point"
          [Ty.int 32, Ty.int 32]))⟩ ((1 : Nat) : Int) 2 = some (li, lv, 2 + 2) ∧
      getStructElementRValueE ⟨.reg 0, .ptr (.ptr (.strukt "struct.point"
          [Ty.int 32, Ty.int 32]))⟩ ((1 : Nat) : Int) (2 + 2)
        = some (gi, rv, 2 + 5) := by
  obtain ⟨li, lv, gi, rv, h1, h2, h3, h4⟩ := struct_field_store_load_roundtrip
    "struct.point" [Ty.int 32, Ty.int 32] 1 (by decide) 0 1 2 (by decide) (by decide)
  exact ⟨li, lv, gi, rv, h1, h2⟩

end IRB
